import Mathlib

/-!
Verification of the Swiss tournament core of the `mgi25/chess` repository.

The definitions below are a shallow embedding of `server/shared/tournament.js`
(the pairing/standings engine) and of the route handlers of `server/index.js`
that the specification's claims talk about.  JavaScript numbers are modelled
as `ℚ` (all score arithmetic in the source stays on exact halves), player and
match identifiers as `Nat`, a nullable player slot as `Option Nat`, and a
`Map`/`Set` as an association list that keeps insertion order (one entry per
key, later `set` overwrites in place, exactly like a JS `Map`).
JS truthiness matters in two places (`!pairing.player1 || !pairing.player2`
and `player2 ? ... : null`): a numeric id is falsy exactly when it is `0`, so
the embedding tests `= 0` / `= some 0` there.
-/

namespace Chess

/-- `RESULT` enum from `shared/constants.js`. -/
inductive GameResult where
  | UNPLAYED
  | PLAYER1
  | PLAYER2
  | DRAW
  | BYE
deriving DecidableEq, Repr

/-- A row of the `players` table (display-only columns omitted from queries
are kept where the standings code reads them: `name`, `fullName`, `seed`,
`addScore`). -/
structure Player where
  id : Nat
  name : String
  fullName : Option String
  seed : Nat
  addScore : ℚ
deriving DecidableEq, Repr

/-- A pairing/match row as served by `getRounds` in `server/index.js`:
`player2 = none` denotes a bye slot. -/
structure Pairing where
  id : Nat
  table : Nat
  player1 : Nat
  player2 : Option Nat
  result : GameResult
deriving DecidableEq, Repr

/-- A round with its ordered pairing list. -/
structure Round where
  roundNumber : Nat
  pairings : List Pairing
deriving DecidableEq, Repr

/-! ### JS `Map` / `Set` model -/

/-- `map.has(k)`. -/
def hasKey {α : Type} (m : List (Nat × α)) (k : Nat) : Bool :=
  m.any (fun e => e.1 = k)

/-- `map.set(k, v)` on an association list: overwrite in place if the key is
present, append otherwise — the JS `Map` insertion-order semantics. -/
def mapSet {α : Type} (m : List (Nat × α)) (k : Nat) (v : α) : List (Nat × α) :=
  if hasKey m k then
    m.map (fun e => if e.1 = k then (k, v) else e)
  else m ++ [(k, v)]

/-- `map.get(k)` (first entry wins; keys are unique when the map was built
with `mapSet`). -/
def mapGet {α : Type} (m : List (Nat × α)) (k : Nat) : Option α :=
  (m.find? (fun e => e.1 = k)).map Prod.snd

/-- In-place mutation of the value stored under `k` (models grabbing the
object with `map.get(k)` and mutating it). -/
def mapUpdate {α : Type} (m : List (Nat × α)) (k : Nat) (f : α → α) : List (Nat × α) :=
  m.map (fun e => if e.1 = k then (e.1, f e.2) else e)

/-- `set.add(x)` on an insertion-ordered list model of a JS `Set`. -/
def setAdd {α : Type} [DecidableEq α] (s : List α) (x : α) : List α :=
  if x ∈ s then s else s ++ [x]

/-! ### `gatherOpponentHistory` (shared/tournament.js, lines 3–15) -/

/-- The opponent-history map: player id → insertion-ordered set of opponent
ids. -/
abbrev OppHistory := List (Nat × List Nat)

/-- `history.get(k)?.add(v)` — a no-op when `k` is not a key. -/
def histAdd (h : OppHistory) (k v : Nat) : OppHistory :=
  mapUpdate h k (fun s => setAdd s v)

/-- One iteration of the pairing loop in `gatherOpponentHistory`:
`if (!pairing.player1 || !pairing.player2) return;` skips byes (and the
falsy id `0`), then both directions are recorded. -/
def recordPairing (h : OppHistory) (pg : Pairing) : OppHistory :=
  if pg.player1 = 0 ∨ pg.player2 = none ∨ pg.player2 = some 0 then h
  else
    match pg.player2 with
    | none => h
    | some q => histAdd (histAdd h pg.player1 q) q pg.player1

/-- `gatherOpponentHistory(players, rounds)`. -/
def gatherOpponentHistory (players : List Player) (rounds : List Round) : OppHistory :=
  let init : OppHistory := players.foldl (fun m p => mapSet m p.id []) []
  rounds.foldl (fun h r => r.pairings.foldl recordPairing h) init

/-- `opponentHistory.get(player)?.has(opponent)` — the conflict test used by
`createSwissPairings` (undefined is falsy, so a missing key means `false`). -/
def histHas (h : OppHistory) (p q : Nat) : Bool :=
  match mapGet h p with
  | none => false
  | some s => q ∈ s

/-! ### `canGenerateNextRound` (shared/tournament.js, lines 122–127) -/

/-- `canGenerateNextRound(rounds)`. -/
def canGenerateNextRound (rounds : List Round) : Bool :=
  if rounds.isEmpty then false
  else rounds.all (fun r => r.pairings.all (fun pg => pg.result ≠ GameResult.UNPLAYED))

/-- Spec-side helper: does any pairing of any round carry `result ==
UNPLAYED`? -/
def hasUnplayed (rounds : List Round) : Bool :=
  rounds.any (fun r => r.pairings.any (fun pg => pg.result = GameResult.UNPLAYED))

/-! ### `createSwissPairings` (shared/tournament.js, lines 129–178)

The recursive `backtrack` closure is embedded with a fuel argument so that it
stays kernel-computable; `createSwissPairings` hands it `pool.length` fuel,
and `backtrack_fuel_irrelevant`-style lemmas below show the search never
consumes more than that (each recursion level removes two players and uses
one unit).  A `none` return of `createSwissPairings` models the
`throw new Error('Unable to create Swiss pairings without conflicts.')`
branch. -/

/-- All ways of choosing one element of a list together with the remainder
`rest.slice(0, i).concat(rest.slice(i + 1))`, in index order. -/
def picks : List Nat → List (Nat × List Nat)
  | [] => []
  | x :: xs => (x, xs) :: (picks xs).map (fun pr => (pr.1, x :: pr.2))

/-- First `some` produced by `f` along a list — the `for … if (…) return
true` loop shape. -/
def firstSome {α β : Type} (f : α → Option β) : List α → Option β
  | [] => none
  | a :: l =>
    match f a with
    | some b => some b
    | none => firstSome f l

/-- The `backtrack(available, currentPairs)` closure: the first loop skips
candidates in the acting player's history, the second ignores history. -/
def backtrack (h : OppHistory) : Nat → List Nat → List (Nat × Nat) → Option (List (Nat × Nat))
  | _, [], acc => some acc
  | 0, _ :: _, _ => none
  | fuel + 1, p :: rest, acc =>
    match firstSome
        (fun pr => if histHas h p pr.1 then none
                   else backtrack h fuel pr.2 (acc ++ [(p, pr.1)]))
        (picks rest) with
    | some s => some s
    | none => firstSome (fun pr => backtrack h fuel pr.2 (acc ++ [(p, pr.1)])) (picks rest)

/-- The pool handed to `backtrack`: for an odd input, `pool.pop()` removes
the last element. -/
def swissPool (playerIds : List Nat) : List Nat :=
  if playerIds.length % 2 = 1 then playerIds.dropLast else playerIds

/-- The popped bye player (`null` when the input pool is even). -/
def swissBye (playerIds : List Nat) : Option Nat :=
  if playerIds.length % 2 = 1 then playerIds.getLast? else none

/-- `createSwissPairings(playerIds, opponentHistory)`; the returned lists are
`[p, q]` pairs plus, for an odd pool, a trailing `[bye]` singleton. -/
def createSwissPairings (playerIds : List Nat) (h : OppHistory) : Option (List (List Nat)) :=
  match backtrack h (swissPool playerIds).length (swissPool playerIds) [] with
  | none => none
  | some solution =>
    some (solution.map (fun pr => [pr.1, pr.2]) ++
      (match swissBye playerIds with
       | some b => [[b]]
       | none => []))

/-! ### The greedy reading of the search

Because the history-ignoring second loop sits inside every recursion node and
every recursive call on an even pool succeeds, the backtracking search never
actually backtracks: it pairs each front player with the first remaining
candidate not in its history, or with the first remaining candidate outright
when all of them are rematches.  `greedyPairs` states this straight-line
computation; the equivalence is proved below. -/

/-- First candidate not in `p`'s history, with the remainder of the list. -/
def pickFresh (h : OppHistory) (p : Nat) : List Nat → Option (Nat × List Nat)
  | [] => none
  | o :: rest =>
    if histHas h p o then (pickFresh h p rest).map (fun pr => (pr.1, o :: pr.2))
    else some (o, rest)

/-- Greedy pairing pass (same fuel discipline as `backtrack`). -/
def greedyPairs (h : OppHistory) : Nat → List Nat → List (Nat × Nat)
  | _, [] => []
  | 0, _ :: _ => []
  | fuel + 1, p :: rest =>
    match pickFresh h p rest with
    | some (q, rem) => (p, q) :: greedyPairs h fuel rem
    | none =>
      match rest with
      | [] => []
      | o :: rem => (p, o) :: greedyPairs h fuel rem

/-- Did the greedy pass ever have to take a rematch (the history-ignoring
loop of a node)? -/
def greedyUsedFallback (h : OppHistory) : Nat → List Nat → Bool
  | _, [] => false
  | 0, _ :: _ => false
  | fuel + 1, p :: rest =>
    match pickFresh h p rest with
    | some pr => greedyUsedFallback h fuel pr.2
    | none => !rest.isEmpty

/-- The greedy restatement of `createSwissPairings` (the amended reading of
the relaxed-fallback claim). -/
def greedySwissPairings (playerIds : List Nat) (h : OppHistory) : Option (List (List Nat)) :=
  some ((greedyPairs h (swissPool playerIds).length (swissPool playerIds)).map
      (fun pr => [pr.1, pr.2]) ++
    (match swissBye playerIds with
     | some b => [[b]]
     | none => []))

/-- Did a `createSwissPairings` run enter the history-ignoring candidate
loop? -/
def swissUsedFallback (playerIds : List Nat) (h : OppHistory) : Bool :=
  greedyUsedFallback h (swissPool playerIds).length (swissPool playerIds)

/-! ### Spec-side predicates for the claims -/

/-- The multiset of players covered by a pair list. -/
def flattenPairs (l : List (Nat × Nat)) : List Nat :=
  l.flatMap (fun pr => [pr.1, pr.2])

/-- `m` is a complete matching of `pool` in which no pair is a rematch under
`h` — the hypothesis of the strict-pass claim. -/
def isRematchFreeMatching (h : OppHistory) (pool : List Nat) (m : List (Nat × Nat)) : Bool :=
  decide (List.Perm (flattenPairs m) pool) &&
    m.all (fun pr => !histHas h pr.1 pr.2 && !histHas h pr.2 pr.1)

/-- Does the round pair `p` against `q` as real opponents (either order)? -/
def realPairInRound (r : Round) (p q : Nat) : Bool :=
  r.pairings.any (fun pg =>
    (pg.player1 = p && pg.player2 = some q) || (pg.player1 = q && pg.player2 = some p))

/-! ### `recalculateStandings` (shared/tournament.js, lines 17–120) -/

/-- The mutable per-player accumulator seeded at the top of
`recalculateStandings`; `opponents` keeps `none` for the `'Bye'` marker. -/
structure PlayerStats where
  id : Nat
  seed : Nat
  name : String
  displayName : String
  addScore : ℚ
  opponents : List (Option Nat)
  wins : Nat
  losses : Nat
  draws : Nat
  byes : Nat
  basePoints : ℚ
deriving DecidableEq, Repr

/-- `player.fullName || player.name` (empty string is falsy). -/
def displayOf (p : Player) : String :=
  match p.fullName with
  | some f => if f = "" then p.name else f
  | none => p.name

/-- The object stored by `statsMap.set(player.id, {...})`
(`player.addScore ?? 0` is the identity here: the column is `NOT NULL`). -/
def initStats (p : Player) : PlayerStats :=
  { id := p.id
    seed := p.seed
    name := displayOf p
    displayName := p.name
    addScore := p.addScore
    opponents := []
    wins := 0
    losses := 0
    draws := 0
    byes := 0
    basePoints := 0 }

/-- `p2Stats && (… mutate p2Stats …)`: update the value under `k` only when
the key exists (a `statsMap.get` miss yields `null`, skipping the branch). -/
def updateIfKey (m : List (Nat × PlayerStats)) (k : Nat) (f : PlayerStats → PlayerStats) :
    List (Nat × PlayerStats) :=
  if hasKey m k then mapUpdate m k f else m

/-- The truthy `player2` id (`player2 ? … : null`; the id `0` is falsy). -/
def truthyP2 (pg : Pairing) : Option Nat :=
  match pg.player2 with
  | some q => if q = 0 then none else some q
  | none => none

/-- One iteration of the pairing loop of `recalculateStandings`: skip when
`!statsMap.has(player1)`, record opponents, then dispatch on `result`. -/
def applyPairing (m : List (Nat × PlayerStats)) (pg : Pairing) : List (Nat × PlayerStats) :=
  if !hasKey m pg.player1 then m
  else
    let m :=
      match truthyP2 pg with
      | some q =>
        updateIfKey (mapUpdate m pg.player1
            (fun s => { s with opponents := setAdd s.opponents (some q) }))
          q (fun s => { s with opponents := setAdd s.opponents (some pg.player1) })
      | none => m
    match pg.result with
    | .PLAYER1 =>
      let m := mapUpdate m pg.player1
        (fun s => { s with wins := s.wins + 1, basePoints := s.basePoints + 1 })
      (match truthyP2 pg with
       | some q => updateIfKey m q (fun s => { s with losses := s.losses + 1 })
       | none => m)
    | .PLAYER2 =>
      let m :=
        match truthyP2 pg with
        | some q =>
          updateIfKey m q
            (fun s => { s with wins := s.wins + 1, basePoints := s.basePoints + 1 })
        | none => m
      mapUpdate m pg.player1 (fun s => { s with losses := s.losses + 1 })
    | .DRAW =>
      let m := mapUpdate m pg.player1
        (fun s => { s with draws := s.draws + 1, basePoints := s.basePoints + 1/2 })
      (match truthyP2 pg with
       | some q =>
         updateIfKey m q
           (fun s => { s with draws := s.draws + 1, basePoints := s.basePoints + 1/2 })
       | none => m)
    | .BYE =>
      mapUpdate m pg.player1
        (fun s => { s with byes := s.byes + 1, basePoints := s.basePoints + 1,
                           opponents := setAdd s.opponents none })
    | .UNPLAYED => m

/-- A row of the returned standings array. -/
structure StandingEntry where
  id : Nat
  seed : Nat
  name : String
  displayName : String
  addScore : ℚ
  opponents : List (Option Nat)
  wins : Nat
  losses : Nat
  draws : Nat
  byes : Nat
  basePoints : ℚ
  gamesPlayed : Nat
  totalPoints : ℚ
  winPercent : ℚ
  opponentSummaries : List String
deriving DecidableEq, Repr

/-- One element of `opponentSummaries`. -/
def summaryOf (playersById : List (Nat × Player)) (o : Option Nat) : String :=
  match o with
  | none => "Bye"
  | some q =>
    match mapGet playersById q with
    | some pd => pd.name ++ " (#" ++ toString pd.id ++ ")"
    | none => "#" ++ toString q

/-- The `map` step that turns a stats record into a standings row. -/
def finalizeEntry (playersById : List (Nat × Player)) (s : PlayerStats) : StandingEntry :=
  let gamesPlayed := s.wins + s.losses + s.draws + s.byes
  { id := s.id
    seed := s.seed
    name := s.name
    displayName := s.displayName
    addScore := s.addScore
    opponents := s.opponents
    wins := s.wins
    losses := s.losses
    draws := s.draws
    byes := s.byes
    basePoints := s.basePoints
    gamesPlayed := gamesPlayed
    totalPoints := s.basePoints + s.addScore
    winPercent := if gamesPlayed = 0 then 0 else s.basePoints / (gamesPlayed : ℚ) * 100
    opponentSummaries := s.opponents.map (summaryOf playersById) }

/-- `comparator(a, b) <= 0` for the standings sort: `totalPoints` desc,
`basePoints` desc, `winPercent` desc, `seed` asc. -/
def entryBefore (a b : StandingEntry) : Bool :=
  if a.totalPoints ≠ b.totalPoints then decide (b.totalPoints < a.totalPoints)
  else if a.basePoints ≠ b.basePoints then decide (b.basePoints < a.basePoints)
  else if a.winPercent ≠ b.winPercent then decide (b.winPercent < a.winPercent)
  else decide (a.seed ≤ b.seed)

/-- Stable insertion step. -/
def insertSorted {α : Type} (le : α → α → Bool) (x : α) : List α → List α
  | [] => [x]
  | y :: ys => if le x y then x :: y :: ys else y :: insertSorted le x ys

/-- Stable sort; `Array.prototype.sort` is specified stable, and the
comparator above induces a total preorder, so stable insertion sort computes
the same ordering. -/
def sortByComparator {α : Type} (le : α → α → Bool) (l : List α) : List α :=
  l.foldr (insertSorted le) []

/-- `recalculateStandings(players, rounds)`. -/
def recalculateStandings (players : List Player) (rounds : List Round) : List StandingEntry :=
  let playersById : List (Nat × Player) := players.foldl (fun m p => mapSet m p.id p) []
  let statsMap0 : List (Nat × PlayerStats) := players.foldl (fun m p => mapSet m p.id (initStats p)) []
  let statsMap := rounds.foldl (fun m r => r.pairings.foldl applyPairing m) statsMap0
  sortByComparator entryBefore ((statsMap.map Prod.snd).map (finalizeEntry playersById))

/-- Forget the manual adjustment of a stats record (used to state that the
rest of the computation never reads it). -/
def stripStats (s : PlayerStats) : PlayerStats := { s with addScore := 0 }

/-- Forget the manual adjustment of a player record. -/
def stripPlayer (p : Player) : Player := { p with addScore := 0 }

/-- Pointwise `stripStats` over a stats map. -/
def statsProj (m : List (Nat × PlayerStats)) : List (Nat × PlayerStats) :=
  m.map (fun e => (e.1, stripStats e.2))

/-- Pointwise `stripPlayer` over a player map. -/
def playersProj (m : List (Nat × Player)) : List (Nat × Player) :=
  m.map (fun e => (e.1, stripPlayer e.2))

/-- The fields of a standings row the win-percent claim talks about. -/
def entryKey (e : StandingEntry) : Nat × ℚ × Nat × ℚ :=
  (e.id, e.basePoints, e.gamesPlayed, e.winPercent)

/-! ### The route handlers of `server/index.js` the claims refer to -/

/-- The stored tournament state (the `players` and `rounds`/`matches`
tables, in query order). -/
structure ServerState where
  players : List Player
  rounds : List Round
deriving DecidableEq, Repr

/-- The pairing computation of `POST /api/rounds`: standings order in,
opponent history in, pair list out. -/
def generateNextRoundPairings (players : List Player) (rounds : List Round) :
    Option (List (List Nat)) :=
  createSwissPairings ((recalculateStandings players rounds).map (fun e => e.id))
    (gatherOpponentHistory players rounds)

/-- Row construction for one generated pair (new match ids are allocated by
the database's autoincrement and never read by any claim; they are modelled
as `0`; the `[]` case cannot be produced by `createSwissPairings`). -/
def pairingOfPair (idx : Nat) (pair : List Nat) : Pairing :=
  match pair with
  | [p] => { id := 0, table := idx + 1, player1 := p, player2 := none, result := .BYE }
  | p :: q :: _ => { id := 0, table := idx + 1, player1 := p, player2 := some q, result := .UNPLAYED }
  | [] => { id := 0, table := idx + 1, player1 := 0, player2 := none, result := .UNPLAYED }

/-- The new round appended by `POST /api/rounds`. -/
def mkNextRound (rounds : List Round) (pairs : List (List Nat)) : Round :=
  { roundNumber := rounds.length + 1
    pairings := pairs.enum.map (fun pr => pairingOfPair pr.1 pr.2) }

/-- `POST /api/rounds`: returns the state afterwards plus the error message
when the request was rejected (`400` precondition or `500` pairing failure);
rejection performs no inserts. -/
def postRounds (s : ServerState) : ServerState × Option String :=
  if !canGenerateNextRound s.rounds then
    (s, some "All matches must be completed before generating the next round.")
  else
    match generateNextRoundPairings s.players s.rounds with
    | none => (s, some "Unable to create Swiss pairings without conflicts.")
    | some pairs => ({ s with rounds := s.rounds ++ [mkNextRound s.rounds pairs] }, none)

/-- `PUT /api/players/:id/adjustment`: `parsedAddScore` is the outcome of
`Number.parseFloat` on the request body (`none` when the parse does not
yield a finite number); returns the new state and the HTTP status. -/
def putAdjustment (s : ServerState) (playerId : Nat) (parsedAddScore : Option ℚ) :
    ServerState × Nat :=
  let value : ℚ :=
    match parsedAddScore with
    | some v => v
    | none => 0
  if s.players.any (fun p => p.id = playerId) then
    let updated := s.players.map
      (fun p => if p.id = playerId then { p with addScore := value } else p)
    ({ s with players := updated }, 204)
  else (s, 404)

/-- `SELECT player2_id FROM matches WHERE id = ?`. -/
def findMatch (rounds : List Round) (matchId : Nat) : Option Pairing :=
  (rounds.flatMap (fun r => r.pairings)).find? (fun pg => pg.id = matchId)

/-- `PUT /api/matches/:id`: `result = none` models a request body outside
the `RESULT` enum; returns the new state and the HTTP status. -/
def putMatchResult (s : ServerState) (matchId : Nat) (result : Option GameResult) :
    ServerState × Nat :=
  match result with
  | none => (s, 400)
  | some res =>
    match findMatch s.rounds matchId with
    | none => (s, 404)
    | some m =>
      if m.player2 = none ∧ res ≠ GameResult.BYE then (s, 400)
      else
        let setRes := fun (r : Round) =>
          let updated := r.pairings.map
            (fun pg => if pg.id = matchId then { pg with result := res } else pg)
          { r with pairings := updated }
        ({ s with rounds := s.rounds.map setRes }, 204)

/-! ### Derived predicates and helper functions used by the statements -/

/-- Does the (non-bye, non-falsy) pairing `pg` put `p` and `q` at the same
board, in either order?  This is exactly the condition under which
`gatherOpponentHistory` records the pair. -/
def pairingLinks (pg : Pairing) (p q : Nat) : Bool :=
  (!(pg.player1 == 0) && !(pg.player2 == none) && !(pg.player2 == some 0)) &&
  ((pg.player1 == p && pg.player2 == some q) || (pg.player1 == q && pg.player2 == some p))

/-- Some pairing of some round links `p` and `q`. -/
def linksIn (rounds : List Round) (p q : Nat) : Bool :=
  rounds.any (fun r => r.pairings.any (fun pg => pairingLinks pg p q))

/-- The spec's notion: `p` met `q` as real opponents in some round (a bye
pairing — `player2 == null` — never counts). -/
def MetIn (rounds : List Round) (p q : Nat) : Prop :=
  ∃ r ∈ rounds, ∃ pg ∈ r.pairings, pg.player2 ≠ none ∧
    ((pg.player1 = p ∧ pg.player2 = some q) ∨ (pg.player1 = q ∧ pg.player2 = some p))

/-- The data-model invariant `player2 == null ⇔ result == BYE`, over a whole
round list. -/
def byeInvariant (rounds : List Round) : Bool :=
  rounds.all (fun r => r.pairings.all (fun pg => decide (pg.player2 = none ↔ pg.result = GameResult.BYE)))

/-- The direction of the invariant the match-update route actually enforces:
`player2 == null → result == BYE`. -/
def byeDirInvariant (rounds : List Round) : Bool :=
  rounds.all (fun r => r.pairings.all (fun pg => !(pg.player2 == none) || (pg.result == GameResult.BYE)))

/-! ### Concrete data for counterexamples and witnesses -/

/-- History for the strict-pass counterexample: only `3` and `4` have met. -/
def hist34 : OppHistory := [(1, []), (2, []), (3, [4]), (4, [3])]

/-- A minimal player record. -/
def mkPlayer (i : Nat) : Player :=
  { id := i, name := "p" ++ toString i, fullName := none, seed := i, addScore := 0 }

/-- Six players, seeds equal to ids. -/
def sixPlayers : List Player :=
  [mkPlayer 1, mkPlayer 2, mkPlayer 3, mkPlayer 4, mkPlayer 5, mkPlayer 6]

/-- Seeded round one: `(5,6)`, `(1,3)`, `(2,4)`, all drawn. -/
def sixRound1 : Round :=
  { roundNumber := 1
    pairings :=
      [ { id := 1, table := 1, player1 := 5, player2 := some 6, result := .DRAW },
        { id := 2, table := 2, player1 := 1, player2 := some 3, result := .DRAW },
        { id := 3, table := 3, player1 := 2, player2 := some 4, result := .DRAW } ] }

/-- The tournament state on which `POST /api/rounds` reproduces a pairing. -/
def sixState : ServerState := { players := sixPlayers, rounds := [sixRound1] }

/-- Four players for the witness runs. -/
def fourPlayers : List Player := [mkPlayer 1, mkPlayer 2, mkPlayer 3, mkPlayer 4]

/-- Round one for the witness runs: `(1,2) → PLAYER1`, `(3,4) → DRAW`. -/
def fourRound1 : Round :=
  { roundNumber := 1
    pairings :=
      [ { id := 1, table := 1, player1 := 1, player2 := some 2, result := .PLAYER1 },
        { id := 2, table := 2, player1 := 3, player2 := some 4, result := .DRAW } ] }

/-- A state with one real unplayed match, for the match-update
counterexample. -/
def oneMatchState : ServerState :=
  { players := [mkPlayer 1, mkPlayer 2]
    rounds :=
      [ { roundNumber := 1
          pairings := [ { id := 1, table := 1, player1 := 1, player2 := some 2, result := .UNPLAYED } ] } ] }

/-- A state whose single match is a bye, for the match-update witness. -/
def oneByeState : ServerState :=
  { players := [mkPlayer 1]
    rounds :=
      [ { roundNumber := 1
          pairings := [ { id := 1, table := 1, player1 := 1, player2 := none, result := .BYE } ] } ] }

/-- The bye pairing stored in `oneByeState`. -/
def oneByePairing : Pairing :=
  { id := 1, table := 1, player1 := 1, player2 := none, result := .BYE }

/-- The first standings row of the witness tournament. -/
def witnessEntry : StandingEntry :=
  (recalculateStandings fourPlayers [fourRound1]).headD (finalizeEntry [] (initStats (mkPlayer 1)))

/-! ## Lemmas about the list and map helpers -/

theorem firstSome_cons {α β : Type} (f : α → Option β) (a : α) (l : List α) :
    firstSome f (a :: l) = match f a with
      | some b => some b
      | none => firstSome f l := rfl

theorem firstSome_eq_none {α β : Type} (f : α → Option β) :
    ∀ l : List α, (∀ a ∈ l, f a = none) → firstSome f l = none := by
  intro l h
  induction l with
  | nil => rfl
  | cons a t ih =>
    rw [firstSome_cons, h a (List.mem_cons_self a t)]
    exact ih fun x hx => h x (List.mem_cons_of_mem a hx)

theorem firstSome_append_of_none {α β : Type} (f : α → Option β) {l₁ : List α} (l₂ : List α)
    (h : ∀ a ∈ l₁, f a = none) : firstSome f (l₁ ++ l₂) = firstSome f l₂ := by
  induction l₁ with
  | nil => rfl
  | cons a t ih =>
    rw [List.cons_append, firstSome_cons, h a (List.mem_cons_self a t)]
    exact ih fun x hx => h x (List.mem_cons_of_mem a hx)

theorem picks_mem_length {l : List Nat} {pr : Nat × List Nat} (h : pr ∈ picks l) :
    pr.2.length + 1 = l.length := by
  induction l generalizing pr with
  | nil => simp [picks] at h
  | cons x xs ih =>
    simp only [picks, List.mem_cons, List.mem_map] at h
    rcases h with h | ⟨q, hq, rfl⟩
    · subst h; simp
    · have := ih hq
      simp only [List.length_cons]
      omega

theorem mem_setAdd {α : Type} [DecidableEq α] (s : List α) (x y : α) :
    y ∈ setAdd s x ↔ y ∈ s ∨ y = x := by
  unfold setAdd
  split
  · rename_i hx
    constructor
    · exact fun h => Or.inl h
    · rintro (h | rfl)
      · exact h
      · exact hx
  · simp

theorem mapGet_nil {α : Type} (x : Nat) : mapGet ([] : List (Nat × α)) x = none := rfl

theorem mapGet_cons {α : Type} (e : Nat × α) (t : List (Nat × α)) (x : Nat) :
    mapGet (e :: t) x = if e.1 = x then some e.2 else mapGet t x := by
  unfold mapGet
  by_cases hx : e.1 = x
  · rw [List.find?_cons_of_pos _ (by simpa using hx), if_pos hx]
    rfl
  · rw [List.find?_cons_of_neg _ (by simpa using hx), if_neg hx]

theorem hasKey_eq_isSome {α : Type} (m : List (Nat × α)) (k : Nat) :
    hasKey m k = (mapGet m k).isSome := by
  induction m with
  | nil => rfl
  | cons e t ih =>
    rw [mapGet_cons]
    by_cases he : e.1 = k
    · simp [hasKey, he]
    · simp only [hasKey, List.any_cons, Bool.or_eq_true, decide_eq_true_eq, if_neg he]
      simp only [hasKey] at ih
      simp [he, ih]

theorem mapGet_map_replace {α : Type} (m : List (Nat × α)) (k x : Nat) (v : α) :
    mapGet (m.map (fun e => if e.1 = k then (k, v) else e)) x =
      if x = k ∧ hasKey m k = true then some v else mapGet m x := by
  induction m with
  | nil => simp [mapGet, hasKey]
  | cons e t ih =>
    rw [List.map_cons]
    by_cases he : e.1 = k
    · rw [if_pos he, mapGet_cons, mapGet_cons]
      by_cases hx : x = k
      · subst hx
        rw [if_pos rfl, if_pos ⟨rfl, by simp [hasKey, he]⟩]
      · rw [if_neg (fun h => hx h.symm), if_neg (fun h => hx h.1), ih,
          if_neg (fun h => hx h.1), if_neg (he ▸ fun h => hx h.symm)]
    · rw [if_neg he, mapGet_cons, mapGet_cons]
      by_cases hx : e.1 = x
      · have hxk : ¬(x = k) := fun h => he (hx.trans h)
        rw [if_pos hx, if_pos hx, if_neg (fun h => hxk h.1)]
      · rw [if_neg hx, if_neg hx, ih]
        have : hasKey (e :: t) k = hasKey t k := by simp [hasKey, he]
        rw [this]

theorem mapGet_mapSet {α : Type} (m : List (Nat × α)) (k x : Nat) (v : α) :
    mapGet (mapSet m k v) x = if x = k then some v else mapGet m x := by
  unfold mapSet
  split
  · rename_i hany
    rw [mapGet_map_replace]
    by_cases hx : x = k
    · rw [if_pos ⟨hx, hany⟩, if_pos hx]
    · rw [if_neg (fun h => hx h.1), if_neg hx]
  · rename_i hany
    induction m with
    | nil =>
      rw [List.nil_append, mapGet_cons, mapGet_nil]
      by_cases hx : x = k
      · rw [if_pos (hx ▸ rfl), if_pos hx]
      · rw [if_neg (fun h => hx h.symm), if_neg hx]
    | cons e t ih =>
      rw [List.cons_append, mapGet_cons, mapGet_cons]
      by_cases hex : e.1 = x
      · have hxk : ¬(x = k) := by
          intro h
          exact hany (by simp [hasKey, List.any_cons, hex, h])
        rw [if_pos hex, if_pos hex, if_neg hxk]
      · rw [if_neg hex, if_neg hex]
        refine ih fun h => hany ?_
        simp only [hasKey, List.any_cons, Bool.or_eq_true]
        right
        simpa [hasKey] using h

theorem mapGet_mapUpdate {α : Type} (m : List (Nat × α)) (k : Nat) (f : α → α) (x : Nat) :
    mapGet (mapUpdate m k f) x = (mapGet m x).map (fun v => if x = k then f v else v) := by
  induction m with
  | nil => rfl
  | cons e t ih =>
    unfold mapUpdate
    rw [List.map_cons]
    by_cases hk : e.1 = k
    · rw [if_pos hk]
      by_cases hx : e.1 = x
      · have hxk : x = k := by rw [← hx, hk]
        rw [mapGet_cons, if_pos hx, mapGet_cons, if_pos hx]
        simp [hxk]
      · rw [mapGet_cons, if_neg hx, mapGet_cons, if_neg hx]
        simpa [mapUpdate] using ih
    · rw [if_neg hk]
      by_cases hx : e.1 = x
      · have hxk : ¬(x = k) := fun h => hk (by rw [hx, h])
        rw [mapGet_cons, if_pos hx, mapGet_cons, if_pos hx]
        simp [hxk]
      · rw [mapGet_cons, if_neg hx, mapGet_cons, if_neg hx]
        simpa [mapUpdate] using ih

theorem hasKey_mapUpdate {α : Type} (m : List (Nat × α)) (k : Nat) (f : α → α) (x : Nat) :
    hasKey (mapUpdate m k f) x = hasKey m x := by
  rw [hasKey_eq_isSome, hasKey_eq_isSome, mapGet_mapUpdate]
  cases mapGet m x <;> rfl

theorem insertSorted_perm {α : Type} (le : α → α → Bool) (x : α) :
    ∀ l : List α, (insertSorted le x l).Perm (x :: l) := by
  intro l
  induction l with
  | nil => exact List.Perm.refl _
  | cons y ys ih =>
    unfold insertSorted
    split
    · exact List.Perm.refl _
    · exact (List.Perm.cons y ih).trans (List.Perm.swap x y ys)

theorem sortByComparator_perm {α : Type} (le : α → α → Bool) (l : List α) :
    (sortByComparator le l).Perm l := by
  induction l with
  | nil => exact List.Perm.refl _
  | cons a t ih =>
    have : sortByComparator le (a :: t) = insertSorted le a (sortByComparator le t) := rfl
    rw [this]
    exact (insertSorted_perm le a _).trans (List.Perm.cons a ih)

/-! ## Lemmas about the pairing search -/

theorem pickFresh_cons (h : OppHistory) (p o : Nat) (rest : List Nat) :
    pickFresh h p (o :: rest) =
      if histHas h p o then (pickFresh h p rest).map (fun pr => (pr.1, o :: pr.2))
      else some (o, rest) := rfl

theorem pickFresh_none {h : OppHistory} {p : Nat} :
    ∀ {l : List Nat}, pickFresh h p l = none → ∀ o ∈ l, histHas h p o = true := by
  intro l
  induction l with
  | nil => intro _ o ho; simp at ho
  | cons a t ih =>
    intro hnone o ho
    rw [pickFresh_cons] at hnone
    by_cases ha : histHas h p a
    · rw [if_pos ha] at hnone
      rcases List.mem_cons.mp ho with rfl | ho'
      · exact ha
      · exact ih (Option.map_eq_none'.mp hnone) o ho'
    · rw [if_neg ha] at hnone
      exact absurd hnone (by simp)

theorem pickFresh_some_fresh {h : OppHistory} {p : Nat} :
    ∀ {l : List Nat} {q : Nat} {rem : List Nat},
      pickFresh h p l = some (q, rem) → histHas h p q = false := by
  intro l
  induction l with
  | nil => intro q rem hs; simp [pickFresh] at hs
  | cons a t ih =>
    intro q rem hs
    rw [pickFresh_cons] at hs
    by_cases ha : histHas h p a
    · rw [if_pos ha] at hs
      obtain ⟨pr', hpr', heq⟩ := Option.map_eq_some'.mp hs
      have hq : pr'.1 = q := congrArg Prod.fst heq
      rw [← hq]
      obtain ⟨q', rem'⟩ := pr'
      exact ih hpr'
    · rw [if_neg ha] at hs
      have hq : a = q := congrArg Prod.fst (Option.some.inj hs)
      rw [← hq]
      exact Bool.eq_false_iff.mpr ha

theorem pickFresh_some_length {h : OppHistory} {p : Nat} :
    ∀ {l : List Nat} {q : Nat} {rem : List Nat},
      pickFresh h p l = some (q, rem) → rem.length + 1 = l.length := by
  intro l
  induction l with
  | nil => intro q rem hs; simp [pickFresh] at hs
  | cons a t ih =>
    intro q rem hs
    rw [pickFresh_cons] at hs
    by_cases ha : histHas h p a
    · rw [if_pos ha] at hs
      obtain ⟨pr', hpr', heq⟩ := Option.map_eq_some'.mp hs
      have hrem : a :: pr'.2 = rem := congrArg Prod.snd heq
      obtain ⟨q', rem'⟩ := pr'
      have ht := ih hpr'
      rw [← hrem]
      simp only [List.length_cons] at *
      omega
    · rw [if_neg ha] at hs
      have hrem : t = rem := congrArg Prod.snd (Option.some.inj hs)
      rw [← hrem]
      simp

theorem pickFresh_some_perm {h : OppHistory} {p : Nat} :
    ∀ {l : List Nat} {q : Nat} {rem : List Nat},
      pickFresh h p l = some (q, rem) → l.Perm (q :: rem) := by
  intro l
  induction l with
  | nil => intro q rem hs; simp [pickFresh] at hs
  | cons a t ih =>
    intro q rem hs
    rw [pickFresh_cons] at hs
    by_cases ha : histHas h p a
    · rw [if_pos ha] at hs
      obtain ⟨pr', hpr', heq⟩ := Option.map_eq_some'.mp hs
      have hq : pr'.1 = q := congrArg Prod.fst heq
      have hrem : a :: pr'.2 = rem := congrArg Prod.snd heq
      obtain ⟨q', rem'⟩ := pr'
      simp only at hq hrem
      subst hq
      rw [← hrem]
      exact (List.Perm.cons a (ih hpr')).trans (List.Perm.swap _ a rem')
    · rw [if_neg ha] at hs
      have hq : a = q := congrArg Prod.fst (Option.some.inj hs)
      have hrem : t = rem := congrArg Prod.snd (Option.some.inj hs)
      rw [← hq, ← hrem]

theorem picks_mem_fst {l : List Nat} {pr : Nat × List Nat} (h : pr ∈ picks l) : pr.1 ∈ l := by
  induction l generalizing pr with
  | nil => simp [picks] at h
  | cons x xs ih =>
    simp only [picks, List.mem_cons, List.mem_map] at h
    rcases h with h | ⟨q, hq, rfl⟩
    · subst h; exact List.mem_cons_self x xs
    · have hq1 : q.1 ∈ xs := ih hq
      exact List.mem_cons_of_mem x hq1

theorem pickFresh_some_decomp {h : OppHistory} {p : Nat} :
    ∀ {l : List Nat} {pr : Nat × List Nat},
      pickFresh h p l = some pr →
      ∃ E₁ E₂, picks l = E₁ ++ pr :: E₂ ∧ ∀ e ∈ E₁, histHas h p e.1 = true := by
  intro l
  induction l with
  | nil => intro pr hs; simp [pickFresh] at hs
  | cons a t ih =>
    intro pr hs
    rw [pickFresh_cons] at hs
    by_cases ha : histHas h p a
    · rw [if_pos ha] at hs
      obtain ⟨pr', hpr', heq⟩ := Option.map_eq_some'.mp hs
      obtain ⟨E₁, E₂, hp, hconf⟩ := ih hpr'
      refine ⟨(a, t) :: E₁.map (fun e => (e.1, a :: e.2)),
        E₂.map (fun e => (e.1, a :: e.2)), ?_, ?_⟩
      · rw [show picks (a :: t) = (a, t) :: (picks t).map (fun e => (e.1, a :: e.2)) from rfl,
          hp, List.map_append, List.map_cons, heq, List.cons_append]
      · intro e he
        rcases List.mem_cons.mp he with rfl | he2
        · exact ha
        · obtain ⟨e', hmem, hfe⟩ := List.mem_map.mp he2
          rw [← hfe]
          exact hconf e' hmem
    · rw [if_neg ha] at hs
      have hpr : (a, t) = pr := Option.some.inj hs
      exact ⟨[], (picks t).map (fun e => (e.1, a :: e.2)),
        by rw [← hpr]; rfl, by simp⟩

theorem backtrack_succ_cons (h : OppHistory) (fuel p : Nat) (rest : List Nat)
    (acc : List (Nat × Nat)) :
    backtrack h (fuel + 1) (p :: rest) acc =
      match firstSome (fun pr => if histHas h p pr.1 then none
            else backtrack h fuel pr.2 (acc ++ [(p, pr.1)])) (picks rest) with
      | some s => some s
      | none => firstSome (fun pr => backtrack h fuel pr.2 (acc ++ [(p, pr.1)])) (picks rest) := rfl

theorem greedyPairs_succ_cons (h : OppHistory) (fuel p : Nat) (rest : List Nat) :
    greedyPairs h (fuel + 1) (p :: rest) =
      match pickFresh h p rest with
      | some pr => (p, pr.1) :: greedyPairs h fuel pr.2
      | none =>
        match rest with
        | [] => []
        | o :: rem => (p, o) :: greedyPairs h fuel rem := by
  cases hpf : pickFresh h p rest with
  | some pr => cases pr; simp [greedyPairs, hpf]
  | none => cases rest <;> simp [greedyPairs, hpf]

theorem backtrack_odd (h : OppHistory) :
    ∀ fuel (l : List Nat) (acc : List (Nat × Nat)), l.length % 2 = 1 →
      backtrack h fuel l acc = none := by
  intro fuel
  induction fuel with
  | zero =>
    intro l acc hl
    cases l with
    | nil => simp at hl
    | cons p rest => rfl
  | succ fuel ih =>
    intro l acc hl
    cases l with
    | nil => simp at hl
    | cons p rest =>
      have hodd : ∀ pr ∈ picks rest, pr.2.length % 2 = 1 := by
        intro pr hpr
        have h1 := picks_mem_length hpr
        simp only [List.length_cons] at hl
        omega
      rw [backtrack_succ_cons]
      have h₁ : firstSome (fun pr => if histHas h p pr.1 then none
          else backtrack h fuel pr.2 (acc ++ [(p, pr.1)])) (picks rest) = none := by
        refine firstSome_eq_none _ _ fun pr hpr => ?_
        by_cases hc : histHas h p pr.1
        · rw [if_pos hc]
        · rw [if_neg hc]
          exact ih pr.2 _ (hodd pr hpr)
      have h₂ : firstSome (fun pr => backtrack h fuel pr.2 (acc ++ [(p, pr.1)]))
          (picks rest) = none :=
        firstSome_eq_none _ _ fun pr hpr => ih pr.2 _ (hodd pr hpr)
      rw [h₁, h₂]

theorem backtrack_even (h : OppHistory) :
    ∀ fuel (l : List Nat) (acc : List (Nat × Nat)), l.length ≤ fuel → l.length % 2 = 0 →
      backtrack h fuel l acc = some (acc ++ greedyPairs h fuel l) := by
  intro fuel
  induction fuel with
  | zero =>
    intro l acc hle _
    have : l = [] := List.eq_nil_of_length_eq_zero (Nat.le_zero.mp hle)
    subst this
    simp [backtrack, greedyPairs]
  | succ fuel ih =>
    intro l acc hle hpar
    cases l with
    | nil => simp [backtrack, greedyPairs]
    | cons p rest =>
      rw [backtrack_succ_cons, greedyPairs_succ_cons]
      simp only [List.length_cons] at hle hpar
      cases hpf : pickFresh h p rest with
      | none =>
        have hall : ∀ o ∈ rest, histHas h p o = true := pickFresh_none hpf
        have h₁ : firstSome (fun pr => if histHas h p pr.1 then none
            else backtrack h fuel pr.2 (acc ++ [(p, pr.1)])) (picks rest) = none := by
          refine firstSome_eq_none _ _ fun pr hpr => ?_
          rw [if_pos (hall pr.1 (picks_mem_fst hpr))]
        rw [h₁]
        cases rest with
        | nil => simp at hpar
        | cons o rem =>
          have hrem : backtrack h fuel rem (acc ++ [(p, o)]) =
              some ((acc ++ [(p, o)]) ++ greedyPairs h fuel rem) := by
            refine ih rem _ ?_ ?_ <;> simp only [List.length_cons] at hle hpar <;> omega
          rw [show picks (o :: rem) = (o, rem) :: (picks rem).map (fun pr => (pr.1, o :: pr.2)) from rfl]
          rw [firstSome_cons, hrem]
          simp [List.append_assoc]
      | some pr =>
        obtain ⟨q, rem⟩ := pr
        obtain ⟨E₁, E₂, hpicks, hconf⟩ := pickFresh_some_decomp hpf
        have hfresh := pickFresh_some_fresh hpf
        have hlen := pickFresh_some_length hpf
        have hrem : backtrack h fuel rem (acc ++ [(p, q)]) =
            some ((acc ++ [(p, q)]) ++ greedyPairs h fuel rem) := by
          refine ih rem _ ?_ ?_ <;> omega
        rw [hpicks, firstSome_append_of_none _ _ (fun e he => by rw [if_pos (hconf e he)]),
          firstSome_cons]
        rw [if_neg (by simp [hfresh]), hrem]
        simp [List.append_assoc]

theorem greedyUsedFallback_succ_cons (h : OppHistory) (fuel p : Nat) (rest : List Nat) :
    greedyUsedFallback h (fuel + 1) (p :: rest) =
      match pickFresh h p rest with
      | some pr => greedyUsedFallback h fuel pr.2
      | none => !rest.isEmpty := rfl

theorem flattenPairs_cons (pr : Nat × Nat) (l : List (Nat × Nat)) :
    flattenPairs (pr :: l) = pr.1 :: pr.2 :: flattenPairs l := rfl

theorem greedy_flatten_perm (h : OppHistory) :
    ∀ fuel (l : List Nat), l.length ≤ fuel → l.length % 2 = 0 →
      (flattenPairs (greedyPairs h fuel l)).Perm l := by
  intro fuel
  induction fuel with
  | zero =>
    intro l hle _
    have : l = [] := List.eq_nil_of_length_eq_zero (Nat.le_zero.mp hle)
    subst this
    exact List.Perm.refl _
  | succ fuel ih =>
    intro l hle hpar
    cases l with
    | nil => exact List.Perm.refl _
    | cons p rest =>
      rw [greedyPairs_succ_cons]
      simp only [List.length_cons] at hle hpar
      cases hpf : pickFresh h p rest with
      | some pr =>
        obtain ⟨q, rem⟩ := pr
        have hlen := pickFresh_some_length hpf
        have hperm := pickFresh_some_perm hpf
        have hih := ih rem (by omega) (by omega)
        rw [flattenPairs_cons]
        exact List.Perm.cons p ((List.Perm.cons q hih).trans hperm.symm)
      | none =>
        cases rest with
        | nil => simp at hpar
        | cons o rem =>
          simp only [List.length_cons] at hle hpar
          have hih := ih rem (by omega) (by omega)
          rw [flattenPairs_cons]
          exact List.Perm.cons p (List.Perm.cons o hih)

theorem greedy_fresh_of_no_fallback (h : OppHistory) :
    ∀ fuel (l : List Nat), greedyUsedFallback h fuel l = false →
      ∀ pr ∈ greedyPairs h fuel l, histHas h pr.1 pr.2 = false := by
  intro fuel
  induction fuel with
  | zero =>
    intro l _ pr hpr
    cases l <;> simp [greedyPairs] at hpr
  | succ fuel ih =>
    intro l hfb pr hpr
    cases l with
    | nil => simp [greedyPairs] at hpr
    | cons p rest =>
      rw [greedyPairs_succ_cons] at hpr
      rw [greedyUsedFallback_succ_cons] at hfb
      cases hpf : pickFresh h p rest with
      | some pr' =>
        simp only [hpf] at hpr hfb
        rcases List.mem_cons.mp hpr with rfl | hmem
        · obtain ⟨q, rem⟩ := pr'
          exact pickFresh_some_fresh hpf
        · exact ih pr'.2 hfb pr hmem
      | none =>
        simp only [hpf] at hpr hfb
        cases rest with
        | nil => simp at hpr
        | cons o rem => simp at hfb

theorem swissPool_even (ids : List Nat) : (swissPool ids).length % 2 = 0 := by
  unfold swissPool
  split
  · rename_i hodd
    rw [List.length_dropLast]
    omega
  · rename_i heven
    omega

/-- The central refinement fact: the two-loop backtracking search of
`createSwissPairings` computes exactly the greedy pass. -/
theorem createSwissPairings_eq (ids : List Nat) (h : OppHistory) :
    createSwissPairings ids h =
      some ((greedyPairs h (swissPool ids).length (swissPool ids)).map
          (fun pr => [pr.1, pr.2]) ++
        (match swissBye ids with
         | some b => [[b]]
         | none => [])) := by
  unfold createSwissPairings
  rw [backtrack_even h _ _ [] le_rfl (swissPool_even ids), List.nil_append]

/-! ## Lemmas about `gatherOpponentHistory` -/

theorem pairingLinks_eq_true_iff (pg : Pairing) (p q : Nat) :
    pairingLinks pg p q = true ↔
      (pg.player1 ≠ 0 ∧ pg.player2 ≠ none ∧ pg.player2 ≠ some 0 ∧
        ((pg.player1 = p ∧ pg.player2 = some q) ∨ (pg.player1 = q ∧ pg.player2 = some p))) := by
  unfold pairingLinks
  simp only [Bool.and_eq_true, Bool.or_eq_true, Bool.not_eq_true', beq_eq_false_iff_ne,
    ne_eq, beq_iff_eq]
  tauto

theorem histHas_histAdd_iff (h : OppHistory) (k v p q : Nat) :
    histHas (histAdd h k v) p q = true ↔
      (histHas h p q = true ∨ (k = p ∧ v = q ∧ hasKey h p = true)) := by
  unfold histHas histAdd
  rw [mapGet_mapUpdate]
  cases hm : mapGet h p with
  | none => simp [hasKey_eq_isSome, hm]
  | some s =>
    rw [hasKey_eq_isSome, hm]
    simp only [Option.map_some', Option.isSome_some]
    by_cases hp : p = k
    · rw [if_pos hp]
      simp only [decide_eq_true_eq, mem_setAdd]
      constructor
      · rintro (hq | rfl)
        · exact Or.inl hq
        · exact Or.inr ⟨hp.symm, rfl, trivial⟩
      · rintro (hq | ⟨-, rfl, -⟩)
        · exact Or.inl hq
        · exact Or.inr rfl
    · rw [if_neg hp]
      simp only [decide_eq_true_eq]
      constructor
      · exact fun hq => Or.inl hq
      · rintro (hq | ⟨hk, -, -⟩)
        · exact hq
        · exact absurd hk.symm hp

theorem hasKey_histAdd (h : OppHistory) (k v x : Nat) :
    hasKey (histAdd h k v) x = hasKey h x := hasKey_mapUpdate h k _ x

theorem hasKey_recordPairing (h : OppHistory) (pg : Pairing) (x : Nat) :
    hasKey (recordPairing h pg) x = hasKey h x := by
  unfold recordPairing
  split
  · rfl
  · cases hp2 : pg.player2 with
    | none => rfl
    | some q2 =>
      simp only [hp2]
      rw [hasKey_histAdd, hasKey_histAdd]

theorem histHas_recordPairing_iff (h : OppHistory) (pg : Pairing) (p q : Nat) :
    histHas (recordPairing h pg) p q = true ↔
      (histHas h p q = true ∨ (pairingLinks pg p q = true ∧ hasKey h p = true)) := by
  unfold recordPairing
  split
  · rename_i hskip
    have hlinks : pairingLinks pg p q = false := by
      unfold pairingLinks
      rcases hskip with hc | hc | hc <;> simp [hc]
    simp [hlinks]
  · rename_i hskip
    push_neg at hskip
    obtain ⟨h1, h2, h3⟩ := hskip
    cases hp2 : pg.player2 with
    | none => exact absurd hp2 h2
    | some q2 =>
      have hq2 : q2 ≠ 0 := by
        intro hz
        exact h3 (by rw [hp2, hz])
      rw [histHas_histAdd_iff, histHas_histAdd_iff, hasKey_histAdd]
      rw [show (pairingLinks pg p q = true) = _ from propext (pairingLinks_eq_true_iff pg p q)]
      rw [hp2]
      constructor
      · rintro ((hh | ⟨ha, hb, hk⟩) | ⟨ha, hb, hk⟩)
        · exact Or.inl hh
        · refine Or.inr ⟨⟨h1, fun hf => Option.noConfusion hf,
            fun hf => hq2 (Option.some.inj hf), Or.inl ⟨ha, ?_⟩⟩, hk⟩
          rw [hb]
        · refine Or.inr ⟨⟨h1, fun hf => Option.noConfusion hf,
            fun hf => hq2 (Option.some.inj hf), Or.inr ⟨hb, ?_⟩⟩, hk⟩
          rw [ha]
      · rintro (hh | ⟨⟨-, -, -, horder⟩, hk⟩)
        · exact Or.inl (Or.inl hh)
        · rcases horder with ⟨ha, hb⟩ | ⟨ha, hb⟩
          · exact Or.inl (Or.inr ⟨ha, Option.some.inj hb, hk⟩)
          · exact Or.inr ⟨Option.some.inj hb, ha, hk⟩

theorem hasKey_foldPairings (pgs : List Pairing) (h : OppHistory) (x : Nat) :
    hasKey (pgs.foldl recordPairing h) x = hasKey h x := by
  induction pgs generalizing h with
  | nil => rfl
  | cons pg t ih => rw [List.foldl_cons, ih, hasKey_recordPairing]

theorem histHas_foldPairings (pgs : List Pairing) (h : OppHistory) (p q : Nat) :
    histHas (pgs.foldl recordPairing h) p q = true ↔
      (histHas h p q = true ∨
        ((pgs.any fun pg => pairingLinks pg p q) = true ∧ hasKey h p = true)) := by
  induction pgs generalizing h with
  | nil => simp
  | cons pg t ih =>
    rw [List.foldl_cons, ih, histHas_recordPairing_iff, hasKey_recordPairing]
    simp only [List.any_cons, Bool.or_eq_true]
    tauto

theorem hasKey_foldRounds (rs : List Round) (h : OppHistory) (x : Nat) :
    hasKey (rs.foldl (fun acc r => r.pairings.foldl recordPairing acc) h) x = hasKey h x := by
  induction rs generalizing h with
  | nil => rfl
  | cons r t ih => rw [List.foldl_cons, ih, hasKey_foldPairings]

theorem histHas_foldRounds (rs : List Round) (h : OppHistory) (p q : Nat) :
    histHas (rs.foldl (fun acc r => r.pairings.foldl recordPairing acc) h) p q = true ↔
      (histHas h p q = true ∨ (linksIn rs p q = true ∧ hasKey h p = true)) := by
  induction rs generalizing h with
  | nil => simp [linksIn]
  | cons r t ih =>
    rw [List.foldl_cons, ih, histHas_foldPairings, hasKey_foldPairings]
    simp only [linksIn, List.any_cons, Bool.or_eq_true]
    tauto

theorem histInit_get (players : List Player) (m₀ : OppHistory) (x : Nat) :
    mapGet (players.foldl (fun m p => mapSet m p.id ([] : List Nat)) m₀) x =
      if x ∈ players.map (fun pl => pl.id) then some [] else mapGet m₀ x := by
  induction players generalizing m₀ with
  | nil => simp
  | cons p t ih =>
    rw [List.foldl_cons, ih]
    by_cases hx : x ∈ t.map (fun pl => pl.id)
    · rw [if_pos hx, if_pos (by simp only [List.map_cons, List.mem_cons]; exact Or.inr hx)]
    · rw [if_neg hx, mapGet_mapSet]
      by_cases hxp : x = p.id
      · rw [if_pos hxp, if_pos (by simp [hxp])]
      · rw [if_neg hxp, if_neg (by simp only [List.map_cons, List.mem_cons]; tauto)]

/-- The full characterisation of the opponent-history map: `q` sits in `p`'s
set exactly when `p` is a known player id and some (non-bye, non-falsy)
pairing of some round put `p` and `q` at the same board. -/
theorem gatherOpponentHistory_spec (players : List Player) (rounds : List Round) (p q : Nat) :
    histHas (gatherOpponentHistory players rounds) p q = true ↔
      (p ∈ players.map (fun pl => pl.id) ∧ linksIn rounds p q = true) := by
  unfold gatherOpponentHistory
  rw [histHas_foldRounds]
  have hget := histInit_get players [] p
  have hinit : histHas (players.foldl (fun m pl => mapSet m pl.id ([] : List Nat))
      ([] : OppHistory)) p q = false := by
    unfold histHas
    rw [hget]
    by_cases hp : p ∈ players.map (fun pl => pl.id)
    · rw [if_pos hp]
      simp
    · rw [if_neg hp]
      rfl
  have hkey : hasKey (players.foldl (fun m pl => mapSet m pl.id ([] : List Nat))
      ([] : OppHistory)) p = decide (p ∈ players.map (fun pl => pl.id)) := by
    rw [hasKey_eq_isSome, hget]
    by_cases hp : p ∈ players.map (fun pl => pl.id)
    · rw [if_pos hp]
      simp [hp]
    · rw [if_neg hp]
      simp [hp, mapGet_nil]
  rw [hinit, hkey]
  simp [and_comm]

theorem linksIn_iff_MetIn (rounds : List Round) (p q : Nat)
    (hnz : ∀ r ∈ rounds, ∀ pg ∈ r.pairings, pg.player1 ≠ 0 ∧ pg.player2 ≠ some 0) :
    linksIn rounds p q = true ↔ MetIn rounds p q := by
  unfold linksIn MetIn
  simp only [List.any_eq_true]
  constructor
  · rintro ⟨r, hr, pg, hpg, hlinks⟩
    obtain ⟨-, hnn, -, horder⟩ := (pairingLinks_eq_true_iff pg p q).mp hlinks
    exact ⟨r, hr, pg, hpg, hnn, horder⟩
  · rintro ⟨r, hr, pg, hpg, hnn, horder⟩
    obtain ⟨h1, h3⟩ := hnz r hr pg hpg
    exact ⟨r, hr, pg, hpg, (pairingLinks_eq_true_iff pg p q).mpr ⟨h1, hnn, h3, horder⟩⟩

/-! ## Lemmas about `recalculateStandings` -/

theorem recalculateStandings_eq (players : List Player) (rounds : List Round) :
    recalculateStandings players rounds = sortByComparator entryBefore
      (((rounds.foldl (fun m r => r.pairings.foldl applyPairing m)
          (players.foldl (fun m p => mapSet m p.id (initStats p)) [])).map Prod.snd).map
        (finalizeEntry (players.foldl (fun m p => mapSet m p.id p) []))) := rfl

theorem mem_recalculateStandings {players : List Player} {rounds : List Round}
    {e : StandingEntry} (he : e ∈ recalculateStandings players rounds) :
    ∃ s ∈ (rounds.foldl (fun m r => r.pairings.foldl applyPairing m)
        (players.foldl (fun m p => mapSet m p.id (initStats p)) [])).map Prod.snd,
      e = finalizeEntry (players.foldl (fun m p => mapSet m p.id p) []) s := by
  rw [recalculateStandings_eq] at he
  have hmem := (sortByComparator_perm entryBefore _).mem_iff.mp he
  obtain ⟨s, hs, rfl⟩ := List.mem_map.mp hmem
  exact ⟨s, hs, rfl⟩

theorem mem_mapSet {α : Type} {m : List (Nat × α)} {k : Nat} {v : α} {e : Nat × α}
    (he : e ∈ mapSet m k v) : e ∈ m ∨ e = (k, v) := by
  unfold mapSet at he
  split at he
  · obtain ⟨e', he', heq⟩ := List.mem_map.mp he
    by_cases hk : e'.1 = k
    · rw [if_pos hk] at heq
      exact Or.inr heq.symm
    · rw [if_neg hk] at heq
      exact Or.inl (heq ▸ he')
  · rcases List.mem_append.mp he with hm | hm
    · exact Or.inl hm
    · exact Or.inr (List.mem_singleton.mp hm)

theorem mem_mapUpdate {α : Type} {m : List (Nat × α)} {k : Nat} {f : α → α} {e : Nat × α}
    (he : e ∈ mapUpdate m k f) : ∃ e' ∈ m, e.1 = e'.1 ∧ (e.2 = f e'.2 ∨ e.2 = e'.2) := by
  obtain ⟨e', he', heq⟩ := List.mem_map.mp he
  by_cases hk : e'.1 = k
  · rw [if_pos hk] at heq
    exact ⟨e', he', by rw [← heq], Or.inl (by rw [← heq])⟩
  · rw [if_neg hk] at heq
    exact ⟨e', he', by rw [← heq], Or.inr (by rw [← heq])⟩

theorem mapUpdate_tracks {m : List (Nat × PlayerStats)} {k : Nat} {f : PlayerStats → PlayerStats}
    (e : Nat × PlayerStats) (he : e ∈ mapUpdate m k f) (hf : ∀ s, (f s).id = s.id) :
    ∃ e' ∈ m, e.1 = e'.1 ∧ e.2.id = e'.2.id := by
  obtain ⟨e', he', h1, h2⟩ := mem_mapUpdate he
  rcases h2 with h2 | h2
  · exact ⟨e', he', h1, by rw [h2, hf]⟩
  · exact ⟨e', he', h1, by rw [h2]⟩

theorem updateIfKey_tracks {m : List (Nat × PlayerStats)} {k : Nat} {f : PlayerStats → PlayerStats}
    (e : Nat × PlayerStats) (he : e ∈ updateIfKey m k f) (hf : ∀ s, (f s).id = s.id) :
    ∃ e' ∈ m, e.1 = e'.1 ∧ e.2.id = e'.2.id := by
  unfold updateIfKey at he
  split at he
  · exact mapUpdate_tracks e he hf
  · exact ⟨e, he, rfl, rfl⟩

theorem applyPairing_tracks {m : List (Nat × PlayerStats)} {pg : Pairing} :
    ∀ e ∈ applyPairing m pg, ∃ e' ∈ m, e.1 = e'.1 ∧ e.2.id = e'.2.id := by
  intro e he
  unfold applyPairing at he
  split at he
  · exact ⟨e, he, rfl, rfl⟩
  · cases ht : truthyP2 pg <;> simp only [ht] at he <;>
      cases hr : pg.result <;> simp only [hr] at he
    case none.UNPLAYED => exact ⟨e, he, rfl, rfl⟩
    case none.PLAYER1 => exact mapUpdate_tracks e he (fun s => rfl)
    case none.PLAYER2 => exact mapUpdate_tracks e he (fun s => rfl)
    case none.DRAW => exact mapUpdate_tracks e he (fun s => rfl)
    case none.BYE => exact mapUpdate_tracks e he (fun s => rfl)
    case some.UNPLAYED =>
      rename_i q
      obtain ⟨e1, he1, ha, hb⟩ := updateIfKey_tracks e he (fun s => rfl)
      obtain ⟨e2, he2, hc, hd⟩ := mapUpdate_tracks e1 he1 (fun s => rfl)
      exact ⟨e2, he2, ha.trans hc, hb.trans hd⟩
    case some.PLAYER1 =>
      rename_i q
      obtain ⟨e1, he1, ha, hb⟩ := updateIfKey_tracks e he (fun s => rfl)
      obtain ⟨e2, he2, hc, hd⟩ := mapUpdate_tracks e1 he1 (fun s => rfl)
      obtain ⟨e3, he3, hc2, hd2⟩ := updateIfKey_tracks e2 he2 (fun s => rfl)
      obtain ⟨e4, he4, hc3, hd3⟩ := mapUpdate_tracks e3 he3 (fun s => rfl)
      exact ⟨e4, he4, ((ha.trans hc).trans hc2).trans hc3, ((hb.trans hd).trans hd2).trans hd3⟩
    case some.PLAYER2 =>
      rename_i q
      obtain ⟨e1, he1, ha, hb⟩ := mapUpdate_tracks e he (fun s => rfl)
      obtain ⟨e2, he2, hc, hd⟩ := updateIfKey_tracks e1 he1 (fun s => rfl)
      obtain ⟨e3, he3, hc2, hd2⟩ := updateIfKey_tracks e2 he2 (fun s => rfl)
      obtain ⟨e4, he4, hc3, hd3⟩ := mapUpdate_tracks e3 he3 (fun s => rfl)
      exact ⟨e4, he4, ((ha.trans hc).trans hc2).trans hc3, ((hb.trans hd).trans hd2).trans hd3⟩
    case some.DRAW =>
      rename_i q
      obtain ⟨e1, he1, ha, hb⟩ := updateIfKey_tracks e he (fun s => rfl)
      obtain ⟨e2, he2, hc, hd⟩ := mapUpdate_tracks e1 he1 (fun s => rfl)
      obtain ⟨e3, he3, hc2, hd2⟩ := updateIfKey_tracks e2 he2 (fun s => rfl)
      obtain ⟨e4, he4, hc3, hd3⟩ := mapUpdate_tracks e3 he3 (fun s => rfl)
      exact ⟨e4, he4, ((ha.trans hc).trans hc2).trans hc3, ((hb.trans hd).trans hd2).trans hd3⟩
    case some.BYE =>
      rename_i q
      obtain ⟨e1, he1, ha, hb⟩ := mapUpdate_tracks e he (fun s => rfl)
      obtain ⟨e2, he2, hc, hd⟩ := updateIfKey_tracks e1 he1 (fun s => rfl)
      obtain ⟨e3, he3, hc2, hd2⟩ := mapUpdate_tracks e2 he2 (fun s => rfl)
      exact ⟨e3, he3, (ha.trans hc).trans hc2, (hb.trans hd).trans hd2⟩

theorem pairingsFold_tracks (pgs : List Pairing) :
    ∀ (m : List (Nat × PlayerStats)), ∀ e ∈ pgs.foldl applyPairing m,
      ∃ e' ∈ m, e.1 = e'.1 ∧ e.2.id = e'.2.id := by
  induction pgs with
  | nil => exact fun m e he => ⟨e, he, rfl, rfl⟩
  | cons pg t ih =>
    intro m e he
    rw [List.foldl_cons] at he
    obtain ⟨e1, he1, ha, hb⟩ := ih (applyPairing m pg) e he
    obtain ⟨e2, he2, hc, hd⟩ := applyPairing_tracks e1 he1
    exact ⟨e2, he2, ha.trans hc, hb.trans hd⟩

theorem roundsFold_tracks (rs : List Round) :
    ∀ (m : List (Nat × PlayerStats)),
      ∀ e ∈ rs.foldl (fun acc r => r.pairings.foldl applyPairing acc) m,
      ∃ e' ∈ m, e.1 = e'.1 ∧ e.2.id = e'.2.id := by
  induction rs with
  | nil => exact fun m e he => ⟨e, he, rfl, rfl⟩
  | cons r t ih =>
    intro m e he
    rw [List.foldl_cons] at he
    obtain ⟨e1, he1, ha, hb⟩ := ih _ e he
    obtain ⟨e2, he2, hc, hd⟩ := pairingsFold_tracks r.pairings m e1 he1
    exact ⟨e2, he2, ha.trans hc, hb.trans hd⟩

theorem statsInit_entry (ps : List Player) :
    ∀ (m₀ : List (Nat × PlayerStats)),
      ∀ e ∈ ps.foldl (fun m p => mapSet m p.id (initStats p)) m₀,
        e ∈ m₀ ∨ ∃ p ∈ ps, e = (p.id, initStats p) := by
  induction ps with
  | nil => exact fun m₀ e he => Or.inl he
  | cons p t ih =>
    intro m₀ e he
    rw [List.foldl_cons] at he
    rcases ih (mapSet m₀ p.id (initStats p)) e he with hm | ⟨p', hp', rfl⟩
    · rcases mem_mapSet hm with hm' | hm'
      · exact Or.inl hm'
      · exact Or.inr ⟨p, List.mem_cons_self p t, hm'⟩
    · exact Or.inr ⟨p', List.mem_cons_of_mem p hp', rfl⟩

/-- Every standings row carries the id of one of the given players. -/
theorem recalculateStandings_id_mem (players : List Player) (rounds : List Round) :
    ∀ e ∈ recalculateStandings players rounds, e.id ∈ players.map (fun pl => pl.id) := by
  intro e he
  obtain ⟨s, hs, rfl⟩ := mem_recalculateStandings he
  obtain ⟨es, hes, hsnd⟩ := List.mem_map.mp hs
  obtain ⟨e', he', -, hid⟩ := roundsFold_tracks rounds _ es hes
  rcases statsInit_entry players [] e' he' with hm | ⟨p, hp, rfl⟩
  · simp at hm
  · have : (finalizeEntry (players.foldl (fun m pl => mapSet m pl.id pl) []) s).id = s.id := rfl
    rw [this, ← hsnd, hid]
    exact List.mem_map.mpr ⟨p, hp, rfl⟩

/-! ## `canGenerateNextRound` -/

theorem canGenerateNextRound_eq (rounds : List Round) :
    canGenerateNextRound rounds = (!rounds.isEmpty && !hasUnplayed rounds) := by
  unfold canGenerateNextRound hasUnplayed
  cases he : rounds.isEmpty
  · rw [if_neg (by simp [he]), Bool.not_false, Bool.true_and, List.all_eq_not_any_not]
    have hfun : (fun r : Round => !(r.pairings.all fun pg => decide (pg.result ≠ GameResult.UNPLAYED)))
        = (fun r : Round => r.pairings.any fun pg => decide (pg.result = GameResult.UNPLAYED)) := by
      funext r
      rw [List.all_eq_not_any_not, Bool.not_not]
      have h2 : (fun pg : Pairing => !(decide (pg.result ≠ GameResult.UNPLAYED)))
          = (fun pg : Pairing => decide (pg.result = GameResult.UNPLAYED)) := by
        funext pg
        simp [decide_not]
      rw [h2]
    rw [hfun]
  · rw [if_pos (by simp [he]), Bool.not_true, Bool.false_and]

/-! ## `addScore`-independence of the win-percent columns -/

theorem mapGet_mapVal {α β : Type} (g : α → β) (m : List (Nat × α)) (q : Nat) :
    mapGet (m.map (fun e => (e.1, g e.2))) q = (mapGet m q).map g := by
  induction m with
  | nil => rfl
  | cons e t ih =>
    rw [List.map_cons, mapGet_cons, mapGet_cons]
    by_cases hq : e.1 = q
    · rw [if_pos hq, if_pos hq]
      rfl
    · rw [if_neg hq, if_neg hq]
      exact ih

theorem hasKey_mapVal {α β : Type} (g : α → β) (m : List (Nat × α)) (k : Nat) :
    hasKey (m.map (fun e => (e.1, g e.2))) k = hasKey m k := by
  rw [hasKey_eq_isSome, hasKey_eq_isSome, mapGet_mapVal]
  cases mapGet m k <;> rfl

theorem projMap_mapSet {α : Type} (g : α → α) (m : List (Nat × α)) (k : Nat) (v : α) :
    (mapSet m k v).map (fun e => (e.1, g e.2)) =
      mapSet (m.map (fun e => (e.1, g e.2))) k (g v) := by
  unfold mapSet
  rw [hasKey_mapVal]
  by_cases hc : hasKey m k = true
  · rw [if_pos hc, if_pos hc, List.map_map, List.map_map]
    refine List.map_congr_left fun e _ => ?_
    by_cases he : e.1 = k
    · simp [Function.comp, he]
    · simp [Function.comp, he]
  · rw [if_neg hc, if_neg hc, List.map_append]
    rfl

theorem hasKey_statsProj (m : List (Nat × PlayerStats)) (k : Nat) :
    hasKey (statsProj m) k = hasKey m k := by
  unfold statsProj
  exact hasKey_mapVal stripStats m k

theorem statsProj_mapSet (m : List (Nat × PlayerStats)) (k : Nat) (v : PlayerStats) :
    statsProj (mapSet m k v) = mapSet (statsProj m) k (stripStats v) := by
  unfold statsProj
  exact projMap_mapSet stripStats m k v

theorem statsProj_mapUpdate (m : List (Nat × PlayerStats)) (k : Nat)
    (f : PlayerStats → PlayerStats) (hf : ∀ s, stripStats (f s) = f (stripStats s)) :
    statsProj (mapUpdate m k f) = mapUpdate (statsProj m) k f := by
  unfold statsProj mapUpdate
  rw [List.map_map, List.map_map]
  refine List.map_congr_left fun e _ => ?_
  by_cases he : e.1 = k
  · simp [Function.comp, he, hf]
  · simp [Function.comp, he]

theorem statsProj_updateIfKey (m : List (Nat × PlayerStats)) (k : Nat)
    (f : PlayerStats → PlayerStats) (hf : ∀ s, stripStats (f s) = f (stripStats s)) :
    statsProj (updateIfKey m k f) = updateIfKey (statsProj m) k f := by
  unfold updateIfKey
  rw [hasKey_statsProj]
  by_cases hc : hasKey m k = true
  · rw [if_pos hc, if_pos hc]
    exact statsProj_mapUpdate m k f hf
  · rw [if_neg hc, if_neg hc]

theorem statsProj_applyPairing (m : List (Nat × PlayerStats)) (pg : Pairing) :
    statsProj (applyPairing m pg) = applyPairing (statsProj m) pg := by
  unfold applyPairing
  rw [hasKey_statsProj]
  by_cases h1 : hasKey m pg.player1 = true
  · rw [if_neg (by simp [h1]), if_neg (by simp [h1])]
    cases ht : truthyP2 pg <;> simp only [ht] <;>
      cases hr : pg.result <;> simp only [hr]
    all_goals
      (repeat (first | rw [statsProj_mapUpdate] | rw [statsProj_updateIfKey])) <;>
        (intro s; rfl)
  · rw [if_pos (by simp [h1]), if_pos (by simp [h1])]

theorem statsProj_pairingsFold (pgs : List Pairing) :
    ∀ m, statsProj (pgs.foldl applyPairing m) = pgs.foldl applyPairing (statsProj m) := by
  induction pgs with
  | nil => exact fun m => rfl
  | cons pg t ih =>
    intro m
    rw [List.foldl_cons, List.foldl_cons, ih, statsProj_applyPairing]

theorem statsProj_roundsFold (rs : List Round) :
    ∀ m, statsProj (rs.foldl (fun acc r => r.pairings.foldl applyPairing acc) m) =
      rs.foldl (fun acc r => r.pairings.foldl applyPairing acc) (statsProj m) := by
  induction rs with
  | nil => exact fun m => rfl
  | cons r t ih =>
    intro m
    rw [List.foldl_cons, List.foldl_cons, ih, statsProj_pairingsFold]

theorem statsProj_initFold (ps : List Player) (f : Player → ℚ) :
    ∀ (m m' : List (Nat × PlayerStats)), statsProj m = statsProj m' →
      statsProj (ps.foldl (fun acc p => mapSet acc p.id (initStats { p with addScore := f p })) m) =
        statsProj (ps.foldl (fun acc p => mapSet acc p.id (initStats p)) m') := by
  induction ps with
  | nil => exact fun m m' h => h
  | cons p t ih =>
    intro m m' h
    rw [List.foldl_cons, List.foldl_cons]
    refine ih _ _ ?_
    rw [statsProj_mapSet, statsProj_mapSet, h]
    have hv : stripStats (initStats { p with addScore := f p }) = stripStats (initStats p) := rfl
    rw [hv]

theorem entryKey_finalize_strip (pb pb' : List (Nat × Player)) (s s' : PlayerStats)
    (hs : stripStats s' = stripStats s) :
    entryKey (finalizeEntry pb' s') = entryKey (finalizeEntry pb s) := by
  have hid := congrArg PlayerStats.id hs
  have hw := congrArg PlayerStats.wins hs
  have hl := congrArg PlayerStats.losses hs
  have hd := congrArg PlayerStats.draws hs
  have hb := congrArg PlayerStats.byes hs
  have hbp := congrArg PlayerStats.basePoints hs
  simp only [stripStats] at hid hw hl hd hb hbp
  unfold entryKey finalizeEntry
  simp only [hid, hw, hl, hd, hb, hbp]

/-- The `(id, basePoints, gamesPlayed, winPercent)` columns of the standings
do not depend on the manual adjustments (up to the reordering the
adjustment-dependent sort keys may cause). -/
theorem recalc_entryKey_perm (players : List Player) (rounds : List Round) (f : Player → ℚ) :
    ((recalculateStandings (players.map (fun p => { p with addScore := f p })) rounds).map
      entryKey).Perm
      ((recalculateStandings players rounds).map entryKey) := by
  rw [recalculateStandings_eq, recalculateStandings_eq]
  have hinit : (players.map (fun p => { p with addScore := f p })).foldl
      (fun m p => mapSet m p.id (initStats p)) [] =
      players.foldl (fun acc p => mapSet acc p.id (initStats { p with addScore := f p })) [] := by
    rw [List.foldl_map]
  have hproj : statsProj (rounds.foldl (fun m r => r.pairings.foldl applyPairing m)
      ((players.map (fun p => { p with addScore := f p })).foldl
        (fun m p => mapSet m p.id (initStats p)) [])) =
      statsProj (rounds.foldl (fun m r => r.pairings.foldl applyPairing m)
        (players.foldl (fun m p => mapSet m p.id (initStats p)) [])) := by
    rw [hinit, statsProj_roundsFold, statsProj_roundsFold,
      statsProj_initFold players f [] [] rfl]
  have hG : ∀ (pb : List (Nat × Player)) (e : Nat × PlayerStats),
      entryKey (finalizeEntry pb e.2) = entryKey (finalizeEntry [] (stripStats e.2)) :=
    fun pb e => (entryKey_finalize_strip pb [] e.2 (stripStats e.2) rfl).symm
  have hkeys : ∀ (pb : List (Nat × Player)) (A : List (Nat × PlayerStats)),
      ((A.map Prod.snd).map (finalizeEntry pb)).map entryKey =
        (statsProj A).map (fun x => entryKey (finalizeEntry [] x.2)) := by
    intro pb A
    unfold statsProj
    rw [List.map_map, List.map_map, List.map_map]
    refine List.map_congr_left fun e _ => ?_
    exact hG pb e
  refine ((sortByComparator_perm entryBefore _).map entryKey).trans
    (List.Perm.trans ?_ ((sortByComparator_perm entryBefore _).map entryKey).symm)
  rw [hkeys, hkeys, hproj]

/-! ## The claims -/

/-- C1, counterexample: on the pool `[1,2,3,4]` whose history contains only
the pair `(3,4)`, a rematch-free complete matching `[(1,3),(2,4)]` exists,
yet `createSwissPairings` returns `[[1,2],[3,4]]`, which pairs `3` against
`4` although each is in the other's history — so the relaxed search is not
attempted only after the strict pass fails for the whole pool. -/
theorem claim_C1_counterexample :
    isRematchFreeMatching hist34 [1, 2, 3, 4] [(1, 3), (2, 4)] = true ∧
    createSwissPairings [1, 2, 3, 4] hist34 = some [[1, 2], [3, 4]] ∧
    histHas hist34 3 4 = true := by
  refine ⟨by decide, by decide, by decide⟩

/-- C1 (corrected): the history-ignoring candidate loop sits inside every
recursion node of `backtrack`, immediately after that node's strict
candidates are exhausted — it is substituted pair-by-pair, not globally.
Since every recursive call on an even pool succeeds, the whole search
degenerates into the greedy pass `greedySwissPairings`: each front player is
paired with the first remaining non-rematch candidate, or with the first
remaining candidate outright when all remaining candidates are rematches.
Consequently the returned pairing may contain rematches even when a
rematch-free complete matching of the pool exists. -/
theorem claim_C1_amended (ids : List Nat) (h : OppHistory) :
    createSwissPairings ids h = greedySwissPairings ids h := by
  rw [createSwissPairings_eq]
  rfl

/-- C2, counterexample: starting from the seeded six-player round
`(5,6), (1,3), (2,4)` (all drawn), `POST /api/rounds` succeeds and produces
round two `(1,2), (3,4), (5,6)` — the unordered pair `{5,6}` now appears in
both rounds, and the response carries no flag (its error component is the
only out-of-band channel and it is `none`). -/
theorem claim_C2_counterexample :
    (postRounds sixState).2 = none ∧
    (postRounds sixState).1.rounds.length = 2 ∧
    (postRounds sixState).1.rounds.all (fun r => realPairInRound r 5 6) = true := by
  refine ⟨by with_unfolding_all decide, by with_unfolding_all decide,
    by with_unfolding_all decide⟩

/-- C2 (corrected): no unordered pair of real opponents repeats across
rounds **unless** the per-node relaxed candidate loop was entered while
generating the new round; the server never flags such an invocation to the
caller (the pairing function returns only the pair list).  Formally: if the
greedy pass never fell back to a rematch candidate, every real pair of the
generated round is absent from every stored round. -/
theorem claim_C2_amended (players : List Player) (rounds : List Round)
    (hnz : ∀ r ∈ rounds, ∀ pg ∈ r.pairings, pg.player1 ≠ 0 ∧ pg.player2 ≠ some 0)
    (hfb : swissUsedFallback ((recalculateStandings players rounds).map (fun e => e.id))
      (gatherOpponentHistory players rounds) = false) :
    ∀ out, generateNextRoundPairings players rounds = some out →
      ∀ l ∈ out, ∀ p q : Nat, l = [p, q] →
        ∀ r ∈ rounds, realPairInRound r p q = false := by
  intro out hout l hl p q hlpq r hr
  by_contra hcontra
  have hreal : realPairInRound r p q = true := by
    cases hb : realPairInRound r p q
    · exact absurd hb hcontra
    · rfl
  set ids := (recalculateStandings players rounds).map (fun e => e.id) with hids
  set hist := gatherOpponentHistory players rounds with hhist
  unfold generateNextRoundPairings at hout
  rw [createSwissPairings_eq] at hout
  have hout' := Option.some.inj hout
  subst hlpq
  rw [← hout'] at hl
  rcases List.mem_append.mp hl with hl | hl
  · -- a real pair produced by the greedy pass
    obtain ⟨pr, hpr, heq⟩ := List.mem_map.mp hl
    have hp : p = pr.1 := by
      have := congrArg (fun l => l.headD 0) heq
      simpa using this.symm
    have hq : q = pr.2 := by
      have := congrArg (fun l => l.tail.headD 0) heq
      simpa using this.symm
    subst hp
    subst hq
    -- the pair is rematch-free
    have hfresh : histHas hist pr.1 pr.2 = false :=
      greedy_fresh_of_no_fallback hist (swissPool ids).length (swissPool ids) hfb pr hpr
    -- its first component is a known player id
    have hmem : pr.1 ∈ swissPool ids := by
      have hflat : pr.1 ∈ flattenPairs (greedyPairs hist (swissPool ids).length (swissPool ids)) :=
        List.mem_flatMap.mpr ⟨pr, hpr, by simp⟩
      exact (greedy_flatten_perm hist (swissPool ids).length (swissPool ids) le_rfl
        (swissPool_even ids)).mem_iff.mp hflat
    have hmem' : pr.1 ∈ ids := by
      unfold swissPool at hmem
      by_cases hodd : ids.length % 2 = 1
      · rw [if_pos hodd] at hmem
        exact (List.dropLast_sublist ids).subset hmem
      · rwa [if_neg hodd] at hmem
    have hpid : pr.1 ∈ players.map (fun pl => pl.id) := by
      rw [hids] at hmem'
      obtain ⟨e, he, heq'⟩ := List.mem_map.mp hmem'
      rw [← heq']
      exact recalculateStandings_id_mem players rounds e he
    -- but the stored round links the two players, so the history has them
    have hlinks : linksIn rounds pr.1 pr.2 = true := by
      unfold realPairInRound at hreal
      obtain ⟨pg, hpg, hord⟩ := List.any_eq_true.mp hreal
      refine List.any_eq_true.mpr ⟨r, hr, List.any_eq_true.mpr ⟨pg, hpg, ?_⟩⟩
      obtain ⟨h1, h3⟩ := hnz r hr pg hpg
      simp only [Bool.or_eq_true, Bool.and_eq_true, decide_eq_true_eq] at hord
      refine (pairingLinks_eq_true_iff pg pr.1 pr.2).mpr ⟨h1, ?_, h3, ?_⟩
      · rcases hord with ⟨-, hb⟩ | ⟨-, hb⟩ <;> rw [hb] <;> exact Option.noConfusion
      · rcases hord with ⟨ha, hb⟩ | ⟨ha, hb⟩
        · exact Or.inl ⟨ha, hb⟩
        · exact Or.inr ⟨ha, hb⟩
    have : histHas hist pr.1 pr.2 = true :=
      (gatherOpponentHistory_spec players rounds pr.1 pr.2).mpr ⟨hpid, hlinks⟩
    rw [this] at hfresh
    exact Bool.noConfusion hfresh
  · -- the bye singleton is never a two-element list
    cases hbye : swissBye ids with
    | none =>
      rw [hbye] at hl
      simp at hl
    | some b =>
      rw [hbye] at hl
      simp only [List.mem_singleton] at hl
      exact absurd (congrArg List.length hl) (by simp)

/-- C2 amended, witness: the four-player tournament after a completed first
round `(1,2) → PLAYER1`, `(3,4) → DRAW` satisfies both hypotheses, and the
amended statement holds for the round it generates. -/
theorem claim_C2_amended_witness :
    ((∀ r ∈ [fourRound1], ∀ pg ∈ r.pairings, pg.player1 ≠ 0 ∧ pg.player2 ≠ some 0) ∧
      swissUsedFallback ((recalculateStandings fourPlayers [fourRound1]).map (fun e => e.id))
        (gatherOpponentHistory fourPlayers [fourRound1]) = false) ∧
    (∀ out, generateNextRoundPairings fourPlayers [fourRound1] = some out →
      ∀ l ∈ out, ∀ p q : Nat, l = [p, q] →
        ∀ r ∈ [fourRound1], realPairInRound r p q = false) :=
  ⟨⟨by decide, by with_unfolding_all decide⟩,
    claim_C2_amended fourPlayers [fourRound1] (by decide) (by with_unfolding_all decide)⟩

/-- C3, counterexample: with an empty round list no pairing has result
`UNPLAYED`, yet `canGenerateNextRound` returns `false` and the route rejects
the request — so "accepted iff no pairing is UNPLAYED" fails at the empty
history. -/
theorem claim_C3_counterexample :
    canGenerateNextRound [] = false ∧ hasUnplayed [] = false ∧
    (postRounds { players := [], rounds := [] }).2.isSome = true ∧
    (postRounds { players := [], rounds := [] }).1 = { players := [], rounds := [] } := by
  refine ⟨by decide, by decide, by decide, by decide⟩

/-- C3 (corrected): `canGenerateNextRound rounds` is `true` exactly when the
round list is **non-empty** and no pairing has result `UNPLAYED` (the guard
`if (!rounds.length) return false` adds the non-emptiness condition the
claim omitted); `POST /api/rounds` is rejected exactly when that condition
fails, and a rejected request leaves the stored state unchanged. -/
theorem claim_C3_amended (s : ServerState) :
    canGenerateNextRound s.rounds = (!s.rounds.isEmpty && !hasUnplayed s.rounds) ∧
    ((postRounds s).2.isSome = true ↔ (s.rounds.isEmpty || hasUnplayed s.rounds) = true) ∧
    ((postRounds s).2.isSome = true → (postRounds s).1 = s) := by
  refine ⟨canGenerateNextRound_eq s.rounds, ?_, ?_⟩ <;>
    · unfold postRounds generateNextRoundPairings
      rw [canGenerateNextRound_eq, createSwissPairings_eq]
      cases he : s.rounds.isEmpty <;> cases hu : hasUnplayed s.rounds <;> simp

/-- C3 amended, witness: the empty state is rejected and left unchanged. -/
theorem claim_C3_amended_witness :
    (postRounds { players := [], rounds := [] }).2.isSome = true ∧
    (postRounds { players := ([] : List Player), rounds := ([] : List Round) }).1 =
      { players := [], rounds := [] } :=
  ⟨(claim_C3_amended ⟨[], []⟩).2.1.mpr (by decide),
    (claim_C3_amended ⟨[], []⟩).2.2 ((claim_C3_amended ⟨[], []⟩).2.1.mpr (by decide))⟩

/-- C4 (confirmed): `createSwissPairings` is total — the second,
history-ignoring candidate loop guarantees the backtracking search completes
a matching of the even-sized post-bye pool for every input, so the fatal
`Unable to create Swiss pairings without conflicts.` branch (modelled as
`none`) is unreachable. -/
theorem claim_C4_total (ids : List Nat) (h : OppHistory) :
    (createSwissPairings ids h).isSome = true := by
  rw [createSwissPairings_eq]
  rfl

/-- C5 (confirmed): for an odd input pool exactly one singleton appears in
the output, it holds the last element of the rank-ordered input (the
unconditionally removed lowest-ranked player), and it sits last, so with
tables numbered `1..N` in output order the bye gets the final table; an even
pool produces no singleton. -/
theorem claim_C5_bye (ids : List Nat) (h : OppHistory) (out : List (List Nat))
    (hout : createSwissPairings ids h = some out) :
    (ids.length % 2 = 1 →
      ∃ b, ids.getLast? = some b ∧
        out.filter (fun l => l.length == 1) = [[b]] ∧ out.getLast? = some [b]) ∧
    (ids.length % 2 = 0 → out.filter (fun l => l.length == 1) = []) := by
  rw [createSwissPairings_eq] at hout
  have hout' := Option.some.inj hout
  have hpairs : ∀ l ∈ (greedyPairs h (swissPool ids).length (swissPool ids)).map
      (fun pr => [pr.1, pr.2]), ¬((fun l => l.length == 1) l = true) := by
    intro l hml
    obtain ⟨pr, -, rfl⟩ := List.mem_map.mp hml
    simp
  constructor
  · intro hodd
    have hne : ids ≠ [] := by
      intro h0
      rw [h0] at hodd
      simp at hodd
    cases hb : ids.getLast? with
    | none => exact absurd (List.getLast?_eq_none_iff.mp hb) hne
    | some b =>
      refine ⟨b, rfl, ?_, ?_⟩
      · rw [← hout']
        unfold swissBye
        rw [if_pos hodd, hb, List.filter_append, List.filter_eq_nil_iff.mpr hpairs]
        rfl
      · rw [← hout']
        unfold swissBye
        rw [if_pos hodd, hb]
        exact List.getLast?_concat _
  · intro heven
    rw [← hout']
    unfold swissBye
    rw [if_neg (by omega), List.append_nil]
    exact List.filter_eq_nil_iff.mpr hpairs

/-- C5, witness: the odd pool `[1,2,3,4,5]` gets exactly the trailing
singleton `[5]`. -/
theorem claim_C5_witness :
    createSwissPairings [1, 2, 3, 4, 5] hist34 = some [[1, 2], [3, 4], [5]] ∧
    ((([1, 2, 3, 4, 5] : List Nat).length % 2 = 1 →
      ∃ b, ([1, 2, 3, 4, 5] : List Nat).getLast? = some b ∧
        [[1, 2], [3, 4], [5]].filter (fun l => l.length == 1) = [[b]] ∧
        ([[1, 2], [3, 4], [5]] : List (List Nat)).getLast? = some [b]) ∧
     (([1, 2, 3, 4, 5] : List Nat).length % 2 = 0 →
      [[1, 2], [3, 4], [5]].filter (fun l => l.length == 1) = [])) :=
  ⟨by decide, claim_C5_bye [1, 2, 3, 4, 5] hist34 [[1, 2], [3, 4], [5]] (by decide)⟩

theorem flatten_map_pairs (G : List (Nat × Nat)) :
    (G.map (fun pr => [pr.1, pr.2])).flatten = flattenPairs G := by
  induction G with
  | nil => rfl
  | cons pr t ih =>
    rw [List.map_cons, List.flatten_cons, flattenPairs_cons, ih]
    rfl

/-- C6 (confirmed): for distinct input ids, the output of
`createSwissPairings` partitions the input — every input id occurs exactly
once across the returned pairs and the optional singleton, and no other id
occurs at all. -/
theorem claim_C6_partition (ids : List Nat) (h : OppHistory) (out : List (List Nat))
    (hout : createSwissPairings ids h = some out) (hnd : ids.Nodup) :
    (∀ x ∈ ids, out.flatten.count x = 1) ∧ (∀ x, x ∉ ids → out.flatten.count x = 0) := by
  rw [createSwissPairings_eq] at hout
  have hout' := Option.some.inj hout
  have hperm : out.flatten.Perm ids := by
    rw [← hout', List.flatten_append, flatten_map_pairs]
    by_cases hodd : ids.length % 2 = 1
    · have hne : ids ≠ [] := by
        intro h0
        rw [h0] at hodd
        simp at hodd
      unfold swissBye swissPool
      rw [if_pos hodd, if_pos hodd]
      cases hg : ids.getLast? with
      | none => exact absurd (List.getLast?_eq_none_iff.mp hg) hne
      | some b =>
        have h1 : (flattenPairs (greedyPairs h ids.dropLast.length ids.dropLast)).Perm
            ids.dropLast :=
          greedy_flatten_perm h _ _ le_rfl (by rw [List.length_dropLast]; omega)
        have h2 : ids.dropLast ++ [b] = ids :=
          List.dropLast_append_getLast? b (Option.mem_def.mpr hg)
        have hjoin : ([[b]] : List (List Nat)).flatten = [b] := by simp
        rw [hjoin]
        have hfin : (ids.dropLast ++ [b]).Perm ids := by rw [h2]
        exact (h1.append_right [b]).trans hfin
    · unfold swissBye swissPool
      rw [if_neg hodd, if_neg hodd]
      have h1 : (flattenPairs (greedyPairs h ids.length ids)).Perm ids :=
        greedy_flatten_perm h _ _ le_rfl (by omega)
      simpa using h1
  constructor
  · intro x hx
    rw [hperm.count_eq]
    exact List.count_eq_one_of_mem hnd hx
  · intro x hx
    rw [hperm.count_eq]
    exact List.count_eq_zero_of_not_mem hx

/-- C6, witness: the distinct pool `[1,2,3,4]` is exactly covered by the
output `[[1,2],[3,4]]`. -/
theorem claim_C6_witness :
    createSwissPairings [1, 2, 3, 4] hist34 = some [[1, 2], [3, 4]] ∧
    ([1, 2, 3, 4] : List Nat).Nodup ∧
    ((∀ x ∈ ([1, 2, 3, 4] : List Nat), ([[1, 2], [3, 4]] : List (List Nat)).flatten.count x = 1) ∧
      (∀ x, x ∉ ([1, 2, 3, 4] : List Nat) → ([[1, 2], [3, 4]] : List (List Nat)).flatten.count x = 0)) :=
  ⟨by decide, by decide,
    claim_C6_partition [1, 2, 3, 4] hist34 [[1, 2], [3, 4]] (by decide) (by decide)⟩

/-- C7 (confirmed): provided no id involved is the falsy `0` (true of the
real data set, where ids start at 1), `gatherOpponentHistory` maps each
player id to exactly the set of opponents met in non-bye (`player2` present)
pairings across all rounds, the relation is symmetric between two player
ids, and a bye pairing contributes to no set. -/
theorem claim_C7_history (players : List Player) (rounds : List Round)
    (hnz : ∀ r ∈ rounds, ∀ pg ∈ r.pairings, pg.player1 ≠ 0 ∧ pg.player2 ≠ some 0) :
    (∀ p q : Nat, p ∈ players.map (fun pl => pl.id) →
      (histHas (gatherOpponentHistory players rounds) p q = true ↔ MetIn rounds p q)) ∧
    (∀ p q : Nat, p ∈ players.map (fun pl => pl.id) → q ∈ players.map (fun pl => pl.id) →
      histHas (gatherOpponentHistory players rounds) p q =
        histHas (gatherOpponentHistory players rounds) q p) := by
  constructor
  · intro p q hp
    rw [gatherOpponentHistory_spec, linksIn_iff_MetIn rounds p q hnz]
    simp [hp]
  · intro p q hp hq
    rw [Bool.eq_iff_iff, gatherOpponentHistory_spec, gatherOpponentHistory_spec,
      linksIn_iff_MetIn rounds p q hnz, linksIn_iff_MetIn rounds q p hnz]
    have hsym : MetIn rounds p q ↔ MetIn rounds q p := by
      unfold MetIn
      constructor <;> rintro ⟨r, hr, pg, hpg, hnn, ho⟩ <;> exact ⟨r, hr, pg, hpg, hnn, ho.symm⟩
    simp [hp, hq, hsym]

/-- C7, witness: in the four-player tournament, `2 ∈ history(1)` holds
exactly because round one paired them. -/
theorem claim_C7_witness :
    (∀ r ∈ [fourRound1], ∀ pg ∈ r.pairings, pg.player1 ≠ 0 ∧ pg.player2 ≠ some 0) ∧
    (histHas (gatherOpponentHistory fourPlayers [fourRound1]) 1 2 = true ↔
      MetIn [fourRound1] 1 2) :=
  ⟨by decide, (claim_C7_history fourPlayers [fourRound1] (by decide)).1 1 2 (by decide)⟩

/-- C8 (confirmed): every standings row satisfies
`gamesPlayed = wins + losses + draws + byes` and
`winPercent = 0` when `gamesPlayed = 0`, else
`basePoints / gamesPlayed * 100`; and the
`(id, basePoints, gamesPlayed, winPercent)` columns are unchanged (as a
multiset of rows) under any modification of the players' `addScore`
adjustments. -/
theorem claim_C8_winPercent (players : List Player) (rounds : List Round) :
    (∀ e ∈ recalculateStandings players rounds,
      e.gamesPlayed = e.wins + e.losses + e.draws + e.byes ∧
      e.winPercent = (if e.gamesPlayed = 0 then 0 else e.basePoints / (e.gamesPlayed : ℚ) * 100)) ∧
    (∀ f : Player → ℚ,
      ((recalculateStandings (players.map (fun p => { p with addScore := f p })) rounds).map
        entryKey).Perm ((recalculateStandings players rounds).map entryKey)) := by
  constructor
  · intro e he
    obtain ⟨s, hs, rfl⟩ := mem_recalculateStandings he
    exact ⟨rfl, rfl⟩
  · exact fun f => recalc_entryKey_perm players rounds f

/-- C8, witness: the leading row of the four-player standings satisfies the
win-percent formula. -/
theorem claim_C8_witness :
    witnessEntry ∈ recalculateStandings fourPlayers [fourRound1] ∧
    (witnessEntry.gamesPlayed =
        witnessEntry.wins + witnessEntry.losses + witnessEntry.draws + witnessEntry.byes ∧
      witnessEntry.winPercent = (if witnessEntry.gamesPlayed = 0 then 0
        else witnessEntry.basePoints / (witnessEntry.gamesPlayed : ℚ) * 100)) :=
  ⟨by with_unfolding_all decide,
    (claim_C8_winPercent fourPlayers [fourRound1]).1 witnessEntry (by with_unfolding_all decide)⟩

/-- C9 (confirmed): the adjustment route never rejects a value for being
non-numeric — when the player exists it answers `204`, stores the parsed
value for finite numeric input and `0` otherwise, and touches nothing
else. -/
theorem claim_C9_adjustment (s : ServerState) (playerId : Nat) (parsed : Option ℚ)
    (hp : (s.players.any (fun p => p.id = playerId)) = true) :
    (putAdjustment s playerId parsed).2 = 204 ∧
    (putAdjustment s playerId parsed).1.rounds = s.rounds ∧
    (∀ p ∈ (putAdjustment s playerId parsed).1.players, p.id = playerId →
      p.addScore = (match parsed with
        | some v => v
        | none => 0)) ∧
    (∀ p ∈ (putAdjustment s playerId parsed).1.players, p.id ≠ playerId → p ∈ s.players) := by
  unfold putAdjustment
  rw [if_pos hp]
  refine ⟨rfl, rfl, ?_, ?_⟩
  · intro p hp' hid
    obtain ⟨p0, hp0, heq⟩ := List.mem_map.mp hp'
    by_cases h0 : p0.id = playerId
    · rw [if_pos h0] at heq
      rw [← heq]
    · rw [if_neg h0] at heq
      rw [← heq] at hid
      exact absurd hid h0
  · intro p hp' hid
    obtain ⟨p0, hp0, heq⟩ := List.mem_map.mp hp'
    by_cases h0 : p0.id = playerId
    · rw [if_pos h0] at heq
      rw [← heq] at hid
      exact absurd h0 hid
    · rw [if_neg h0] at heq
      exact heq ▸ hp0

/-- C9, witness: a non-numeric body (`parsed = none`) on an existing player
answers `204` and stores `0`. -/
theorem claim_C9_witness :
    (([mkPlayer 1].any (fun p => p.id = 1)) = true) ∧
    ((putAdjustment ⟨[mkPlayer 1], []⟩ 1 none).2 = 204 ∧
      (putAdjustment ⟨[mkPlayer 1], []⟩ 1 none).1.rounds = ([] : List Round) ∧
      (∀ p ∈ (putAdjustment ⟨[mkPlayer 1], []⟩ 1 none).1.players, p.id = 1 →
        p.addScore = (match (none : Option ℚ) with
          | some v => v
          | none => 0)) ∧
      (∀ p ∈ (putAdjustment ⟨[mkPlayer 1], []⟩ 1 none).1.players, p.id ≠ 1 →
        p ∈ [mkPlayer 1])) :=
  ⟨by decide, claim_C9_adjustment ⟨[mkPlayer 1], []⟩ 1 none (by decide)⟩

/-- C10, counterexample: a real (non-bye) unplayed match can be set to
`BYE` — the request is accepted with `204` and breaks the invariant
`player2 == null ⇔ result == BYE`, which held beforehand. -/
theorem claim_C10_counterexample :
    byeInvariant oneMatchState.rounds = true ∧
    (putMatchResult oneMatchState 1 (some GameResult.BYE)).2 = 204 ∧
    byeInvariant (putMatchResult oneMatchState 1 (some GameResult.BYE)).1.rounds = false := by
  refine ⟨by decide, by decide, by decide⟩

/-- C10 (corrected): for a stored match with `player2 == null` every result
other than `BYE` is rejected with `400` and the state is returned unchanged;
result updates preserve the direction `player2 == null → result == BYE` of
the pairing invariant, but not its converse — a match with a real `player2`
may be set to `BYE` (see the counterexample). -/
theorem claim_C10_amended (s : ServerState) (matchId : Nat) (res : GameResult) (m : Pairing)
    (hm : findMatch s.rounds matchId = some m)
    (hunique : ∀ pg ∈ s.rounds.flatMap (fun r => r.pairings), pg.id = matchId → pg = m) :
    (m.player2 = none → res ≠ GameResult.BYE →
      putMatchResult s matchId (some res) = (s, 400)) ∧
    (byeDirInvariant s.rounds = true →
      byeDirInvariant (putMatchResult s matchId (some res)).1.rounds = true) := by
  constructor
  · intro hp2 hres
    unfold putMatchResult
    simp only [hm]
    rw [if_pos ⟨hp2, hres⟩]
  · intro hinv
    unfold putMatchResult
    simp only [hm]
    by_cases hguard : m.player2 = none ∧ res ≠ GameResult.BYE
    · rw [if_pos hguard]
      exact hinv
    · rw [if_neg hguard]
      unfold byeDirInvariant at hinv ⊢
      rw [List.all_eq_true] at hinv ⊢
      intro r hr
      obtain ⟨r0, hr0, rfl⟩ := List.mem_map.mp hr
      rw [List.all_eq_true]
      intro pg hpg
      obtain ⟨pg0, hpg0, rfl⟩ := List.mem_map.mp hpg
      by_cases hid : pg0.id = matchId
      · rw [if_pos hid]
        have hpg0m : pg0 = m := hunique pg0 (List.mem_flatMap.mpr ⟨r0, hr0, hpg0⟩) hid
        by_cases hp2 : m.player2 = none
        · have hres : res = GameResult.BYE := by
            by_contra hr'
            exact hguard ⟨hp2, hr'⟩
          simp [hres]
        · rw [hpg0m]
          simp [hp2]
      · rw [if_neg hid]
        have := hinv r0 hr0
        rw [List.all_eq_true] at this
        exact this pg0 hpg0

/-- C10 amended, witness: the bye match of `oneByeState` rejects a `DRAW`
with `400`, leaving the state unchanged, and the preserved direction of the
invariant holds on the result. -/
theorem claim_C10_amended_witness :
    (findMatch oneByeState.rounds 1 = some oneByePairing ∧
      (∀ pg ∈ oneByeState.rounds.flatMap (fun r => r.pairings), pg.id = 1 → pg = oneByePairing)) ∧
    ((oneByePairing.player2 = none → GameResult.DRAW ≠ GameResult.BYE →
        putMatchResult oneByeState 1 (some GameResult.DRAW) = (oneByeState, 400)) ∧
      (byeDirInvariant oneByeState.rounds = true →
        byeDirInvariant (putMatchResult oneByeState 1 (some GameResult.DRAW)).1.rounds = true)) :=
  ⟨⟨by decide, by decide⟩,
    claim_C10_amended oneByeState 1 GameResult.DRAW oneByePairing (by decide) (by decide)⟩

end Chess
